import Mathlib

/-!
Verification development for the web-dance rhythm game.

Shallow embedding of the judgement/scoring core
(src/rhythm-game/src/systems/game-manager.ts), the procedural beat-map
generator (rhythm-engine), and the adaptive performance controller
(performance monitor).  JavaScript numbers are modelled as rationals;
wall-clock timestamps (performance.now()) are rationals; the Euclidean
distance comparison dist <= r of the source is embedded as the equivalent
comparison of the squared distance distSq <= r^2, which keeps every
definition inside the rationals and hence executable.
-/

namespace WebDance

/-- A 3D position with rational coordinates (the source uses THREE.Vector3). -/
structure Vec3 where
  x : ℚ
  y : ℚ
  z : ℚ
deriving DecidableEq

/-- Squared Euclidean distance.  The source computes
handPosition.distanceTo(beatPosition) and compares it with a radius r;
since both sides are nonnegative this is equivalent to distSq <= r^2. -/
def distSq (a b : Vec3) : ℚ :=
  (a.x - b.x) ^ 2 + (a.y - b.y) ^ 2 + (a.z - b.z) ^ 2

/-- JudgementResult of the source, without the null member (null is
represented by Option). -/
inductive Judgement
  | perfect
  | good
  | miss
deriving DecidableEq

/-- A judgement event fired through the onJudgement callback, identified by
the judged result and the time of the judged beat (beat identity in the
source is its time). -/
abbrev GEvent := Judgement × ℚ

-- JUDGEMENT_WINDOWS (milliseconds)
def perfectWindow : ℚ := 50
def goodWindow : ℚ := 100

-- JUDGEMENT_DISTANCES (scene units)
def perfectDistance : ℚ := 3 / 10
def goodDistance : ℚ := 6 / 10

-- SCORE_CONFIG
def comboBonusStep : ℚ := 1 / 10

/-- SCORE_CONFIG base score of a judgement. -/
def scoreBase : Judgement → ℚ
  | .perfect => 100
  | .good => 50
  | .miss => 0

/-- Kind of a beat point (the type field of BeatPoint). -/
inductive BeatKind
  | normal
  | hold
  | slide
deriving DecidableEq

/-- BeatPoint of rhythm-engine.  color is an index into the four-element
colour table of the generator. -/
structure Beat where
  time : ℚ
  position : Vec3
  kind : BeatKind := .normal
  duration : Option ℚ := none
  color : ℕ := 0
  size : ℚ := 3 / 10
deriving DecidableEq

/-- GameState of game-manager.ts. -/
inductive GameState
  | loading
  | ready
  | countdown
  | playing
  | paused
  | finished
deriving DecidableEq

/-- GameStats of game-manager.ts. -/
structure GameStats where
  score : ℤ
  combo : ℕ
  maxCombo : ℕ
  perfects : ℕ
  goods : ℕ
  misses : ℕ
  accuracy : ℤ
  totalNotes : ℕ
  hitNotes : ℕ
deriving DecidableEq

/-- The mutable fields of the GameManager class that the modelled
operations read or write.  The JS Set<number> fields are lists of times
with set semantics (insertion is deduplicating).  The scene, config fields
other than autoPlay, and the callback record only drive unmodelled
presentation side effects. -/
structure GameManager where
  state : GameState
  beats : List Beat
  activeBeats : List Beat
  processedBeats : List ℚ
  missedBeats : List ℚ
  gameStartTime : ℚ
  lastUpdateTime : ℚ
  stats : GameStats
  autoPlay : Bool
deriving DecidableEq

/-- Set.add of the JS Set<number>: inserts unless already present. -/
def insertTime (t : ℚ) (l : List ℚ) : List ℚ :=
  if t ∈ l then l else t :: l

/-- Math.abs. -/
def jsAbs (q : ℚ) : ℚ := if 0 ≤ q then q else -q

/-- Math.round: round half away from zero is Math.round only for
nonnegative arguments, which is the only case reached here; JS
Math.round x = floor (x + 1/2). -/
def jsRound (q : ℚ) : ℤ := ⌊q + 1 / 2⌋

/-- GameManager.calculateAccuracy: recompute the weighted accuracy
(weightedSum / (totalJudged * 100) scaled to percent and rounded) unless
no note has been judged yet (then the field is left unchanged). -/
def calculateAccuracy (s : GameStats) : GameStats :=
  if s.perfects + s.goods + s.misses = 0 then s
  else
    { s with
      accuracy := jsRound (((s.perfects : ℚ) * 100 + (s.goods : ℚ) * 60) /
        (((s.perfects + s.goods + s.misses : ℕ) : ℚ) * 100) * 100) }

/-- The stats part of GameManager.processHit: hitNotes, the per-result
counters and combo, maxCombo, the score gain (note: the combo bonus is
computed from this.stats.combo after the increment for the current hit),
and the accuracy recomputation. -/
def processHitStats (r : Judgement) (s : GameStats) : GameStats :=
  let s1 := { s with hitNotes := s.hitNotes + 1 }
  let s2 :=
    match r with
    | .perfect => { s1 with perfects := s1.perfects + 1, combo := s1.combo + 1 }
    | .good => { s1 with goods := s1.goods + 1, combo := s1.combo + 1 }
    | .miss => s1
  let s3 := if s2.maxCombo < s2.combo then { s2 with maxCombo := s2.combo } else s2
  let comboBonus : ℚ := ((s3.combo / 10 : ℕ) : ℚ) * comboBonusStep
  let scoreGain : ℤ := ⌊scoreBase r * (1 + comboBonus)⌋
  calculateAccuracy { s3 with score := s3.score + scoreGain }

/-- The filter this.activeBeats.filter(b => b.time !== beat.time) of
processHit. -/
def removeTime (t : ℚ) : List Beat → List Beat
  | [] => []
  | b :: rest => if b.time = t then removeTime t rest else b :: removeTime t rest

/-- GameManager.processHit: mark the beat processed, drop it from the
active list, update the stats.  The effects and callback invocations are
presentation side effects; the fired judgement event is returned by the
enclosing loop. -/
def processHit (b : Beat) (r : Judgement) (gm : GameManager) : GameManager :=
  { gm with
    processedBeats := insertTime b.time gm.processedBeats
    activeBeats := removeTime b.time gm.activeBeats
    stats := processHitStats r gm.stats }

/-- The body of GameManager.checkMissedBeats for one missed beat: mark it
missed, bump misses, reset the combo, recompute accuracy. -/
def recordMiss (b : Beat) (gm : GameManager) : GameManager :=
  { gm with
    missedBeats := insertTime b.time gm.missedBeats
    stats := calculateAccuracy { gm.stats with misses := gm.stats.misses + 1, combo := 0 } }

/-- The classification of GameManager.checkHandCollisions for one beat:
the outer window test timeDiff <= good, then perfect iff the distance and
time are within the perfect thresholds, else good iff within the good
thresholds.  d2 is the squared distance. -/
def classify (d2 dt : ℚ) : Option Judgement :=
  if dt ≤ goodWindow then
    if d2 ≤ perfectDistance ^ 2 ∧ dt ≤ perfectWindow then some .perfect
    else if d2 ≤ goodDistance ^ 2 ∧ dt ≤ goodWindow then some .good
    else none
  else none

/-- The forEach loop of GameManager.checkHandCollisions.  The source
iterates over the activeBeats array captured at entry while processHit
reassigns this.activeBeats, so the loop runs over the entry list with the
manager state threaded through. -/
def collideLoop (g : ℚ) (hp : Vec3) : List Beat → GameManager → GameManager × List GEvent
  | [], gm => (gm, [])
  | b :: rest, gm =>
    if b.time ∈ gm.processedBeats then collideLoop g hp rest gm
    else
      match classify (distSq hp b.position) (jsAbs (g - b.time)) with
      | some r =>
        let res := collideLoop g hp rest (processHit b r gm)
        (res.1, (r, b.time) :: res.2)
      | none => collideLoop g hp rest gm

/-- The forEach loop of GameManager.checkMissedBeats. -/
def missLoop (g : ℚ) : List Beat → GameManager → GameManager × List GEvent
  | [], gm => (gm, [])
  | b :: rest, gm =>
    if b.time ∈ gm.processedBeats ∨ b.time ∈ gm.missedBeats then missLoop g rest gm
    else if b.time + goodWindow < g then
      let res := missLoop g rest (recordMiss b gm)
      (res.1, (Judgement.miss, b.time) :: res.2)
    else missLoop g rest gm

/-- The forEach loop of GameManager.handleAutoPlay.  Math.random() is the
explicit stream rnd, consumed one value per auto-hit beat;
random > 0.2 selects perfect, otherwise good. -/
def autoLoop (g : ℚ) (rnd : ℕ → ℚ) : List Beat → ℕ → GameManager → GameManager × List GEvent
  | [], _, gm => (gm, [])
  | b :: rest, k, gm =>
    if b.time ∈ gm.processedBeats then autoLoop g rnd rest k gm
    else if jsAbs (g - b.time) < 10 then
      let r := if 1 / 5 < rnd k then Judgement.perfect else Judgement.good
      let res := autoLoop g rnd rest (k + 1) (processHit b r gm)
      (res.1, (r, b.time) :: res.2)
    else autoLoop g rnd rest k gm

/-- The filter of GameManager.updateActiveBeats: the beats whose appear
window [time - 1000, time + 500] contains the game time and that are not
yet processed (missed beats are not excluded). -/
def activeFilter (g : ℚ) (proc : List ℚ) : List Beat → List Beat
  | [] => []
  | b :: rest =>
    if b.time - 1000 ≤ g ∧ g ≤ b.time + 500 ∧ b.time ∉ proc then
      b :: activeFilter g proc rest
    else activeFilter g proc rest

/-- GameManager.updateActiveBeats: recompute the active list.  The
create/remove notifications are presentation side effects. -/
def updateActiveBeats (g : ℚ) (gm : GameManager) : GameManager :=
  { gm with activeBeats := activeFilter g gm.processedBeats gm.beats }

/-- GameManager.checkHandCollisions: nothing happens without a hand
position.  The source re-reads performance.now() here; within one frame it
is the same timestamp as the enclosing update, which is how it is
modelled. -/
def checkHandCollisions (g : ℚ) (hand : Option Vec3) (gm : GameManager) :
    GameManager × List GEvent :=
  match hand with
  | none => (gm, [])
  | some hp => collideLoop g hp gm.activeBeats gm

/-- GameManager.checkMissedBeats. -/
def checkMissedBeats (g : ℚ) (gm : GameManager) : GameManager × List GEvent :=
  missLoop g gm.activeBeats gm

/-- GameManager.handleAutoPlay. -/
def handleAutoPlay (g : ℚ) (rnd : ℕ → ℚ) (gm : GameManager) : GameManager × List GEvent :=
  autoLoop g rnd gm.activeBeats 0 gm

/-- The first two steps of the update body: record lastUpdateTime and run
updateActiveBeats at the game time now - gameStartTime, then hit testing.
Note the loops never touch gameStartTime, so the game time of the later
stages is the same value. -/
def hcStage (now : ℚ) (hand : Option Vec3) (gm : GameManager) :
    GameManager × List GEvent :=
  checkHandCollisions (now - gm.gameStartTime) hand
    (updateActiveBeats (now - gm.gameStartTime) { gm with lastUpdateTime := now })

/-- The miss-detection step of the update body, after hit testing. -/
def mbStage (now : ℚ) (hand : Option Vec3) (gm : GameManager) :
    GameManager × List GEvent :=
  checkMissedBeats (now - gm.gameStartTime) (hcStage now hand gm).1

/-- The auto-play step of the update body, run when config.autoPlay. -/
def auStage (now : ℚ) (hand : Option Vec3) (rnd : ℕ → ℚ) (gm : GameManager) :
    GameManager × List GEvent :=
  if (mbStage now hand gm).1.autoPlay then
    handleAutoPlay (now - gm.gameStartTime) rnd (mbStage now hand gm).1
  else ((mbStage now hand gm).1, [])

/-- GameManager.update at wall clock now: only in the playing state;
records lastUpdateTime, derives the game time from the shifted clock
origin and runs the active-window maintenance, hit testing, miss
detection and (when configured) auto play.  checkGameEnd only schedules a
deferred endGame and touches no modelled state; effectsManager.update is
presentation. -/
def update (now : ℚ) (hand : Option Vec3) (rnd : ℕ → ℚ) (gm : GameManager) :
    GameManager × List GEvent :=
  if gm.state = .playing then
    ((auStage now hand rnd gm).1,
      (hcStage now hand gm).2 ++ (mbStage now hand gm).2 ++ (auStage now hand rnd gm).2)
  else (gm, [])

/-- GameManager.pauseGame: playing to paused (audio/motion pausing is
external). -/
def pauseGame (gm : GameManager) : GameManager :=
  if gm.state = .playing then { gm with state := .paused } else gm

/-- GameManager.resumeGame at wall clock now: paused to playing, shift the
clock origin forward by now - lastUpdateTime and stamp lastUpdateTime. -/
def resumeGame (now : ℚ) (gm : GameManager) : GameManager :=
  if gm.state = .paused then
    { gm with
      state := .playing
      gameStartTime := gm.gameStartTime + (now - gm.lastUpdateTime)
      lastUpdateTime := now }
  else gm

/-- The count of beats that are neither processed nor missed, as walked
by the forEach of calculateFinalAccuracy. -/
def countUnresolved (proc missed : List ℚ) : List Beat → ℕ
  | [] => 0
  | b :: rest =>
    (if b.time ∉ proc ∧ b.time ∉ missed then 1 else 0) + countUnresolved proc missed rest

/-- GameManager.calculateFinalAccuracy: count every beat that is neither
processed nor missed as an additional miss (without marking it), then
recompute the accuracy. -/
def calculateFinalAccuracy (gm : GameManager) : GameManager :=
  { gm with
    stats := calculateAccuracy
      { gm.stats with
        misses := gm.stats.misses +
          countUnresolved gm.processedBeats gm.missedBeats gm.beats } }

/-- GameManager.endGame: set the finished state (audio stop and tracker
disposal are external), then calculateFinalAccuracy; onGameComplete
receives a snapshot. -/
def endGame (gm : GameManager) : GameManager :=
  calculateFinalAccuracy { gm with state := .finished }

/-- The stats produced by resetGameState for a map with the given number
of notes (accuracy starts at 100). -/
def initialStats (total : ℕ) : GameStats :=
  { score := 0, combo := 0, maxCombo := 0, perfects := 0, goods := 0, misses := 0
    accuracy := 100, totalNotes := total, hitNotes := 0 }

/-- One per-frame input of the host render loop: the performance.now()
timestamp, the latest motion-tracker sample (none when no hand), and the
Math.random() stream of the frame. -/
structure UpdIn where
  now : ℚ
  hand : Option Vec3
  rnd : ℕ → ℚ

/-- A sequence of update calls, collecting all judgement events. -/
def runTrace : GameManager → List UpdIn → GameManager × List GEvent
  | gm, [] => (gm, [])
  | gm, u :: rest =>
    let res := update u.now u.hand u.rnd gm
    let res' := runTrace res.1 rest
    (res'.1, res.2 ++ res'.2)

/-! ### Beat-map generator (rhythm-engine, generateBeatsFromBPM) -/

/-- The difficulty levels of the BeatMap type. -/
inductive Difficulty
  | easy
  | normal
  | hard
deriving DecidableEq

/-- DifficultyConfig of rhythm-engine (specialBeatRatio is named
specialBeatRate here). -/
structure DifficultyConfig where
  beatDensity : ℕ
  positionVariance : ℚ
  specialBeatRate : ℚ
  speedMultiplier : ℚ

/-- DIFFICULTY_PRESETS. -/
def DIFFICULTY_PRESETS : Difficulty → DifficultyConfig
  | .easy => ⟨2, 3 / 10, 1 / 10, 8 / 10⟩
  | .normal => ⟨4, 6 / 10, 2 / 10, 1⟩
  | .hard => ⟨8, 9 / 10, 3 / 10, 12 / 10⟩

/-- The tick filter i % Math.floor(4 / beatDensity) !== 0 of the
generator loop.  step is the natural-number floor of 4 / beatDensity.
When step is 0 (the hard preset: floor (4/8) = 0), JavaScript evaluates
i % 0 to NaN, and NaN !== 0 holds for every i, so no tick is kept. -/
def keepTick (i step : ℕ) : Bool :=
  if step = 0 then false else i % step = 0

/-- The body of the generator loop over the tick indices.  pat i stands
for POSITION_PATTERNS[selectedPatterns[(i/16) % 2]](i % 16, 16): the
pattern table mixes trigonometric values and its selection is random, and
no modelled property inspects positions, so the base position is an
oracle parameter.  rnd is the Math.random() stream, consumed in source
order: x perturbation, y perturbation, special test, (hold/slide choice
when special), colour choice. -/
def genLoop (cfg : DifficultyConfig) (beatInterval offset : ℚ) (pat : ℕ → Vec3)
    (rnd : ℕ → ℚ) (step : ℕ) : List ℕ → ℕ → List Beat
  | [], _ => []
  | i :: rest, ctr =>
    if keepTick i step then
      let time := offset + (i : ℚ) * beatInterval
      let basePos := pat i
      let px := basePos.x + (rnd ctr - 1 / 2) * cfg.positionVariance
      let py := basePos.y + (rnd (ctr + 1) - 1 / 2) * cfg.positionVariance
      let isSpecial := rnd (ctr + 2) < cfg.specialBeatRate
      let kindCtr : BeatKind × ℕ :=
        if isSpecial then
          (if 1 / 2 < rnd (ctr + 3) then BeatKind.hold else BeatKind.slide, ctr + 4)
        else (BeatKind.normal, ctr + 3)
      let beat : Beat :=
        { time := time
          position := ⟨px, py, basePos.z⟩
          kind := kindCtr.1
          duration := if kindCtr.1 = BeatKind.hold then some (beatInterval * 2) else none
          color := (⌊rnd kindCtr.2 * 4⌋).toNat
          size := if isSpecial then 4 / 10 else 3 / 10 }
      beat :: genLoop cfg beatInterval offset pat rnd step rest (kindCtr.2 + 1)
    else genLoop cfg beatInterval offset pat rnd step rest ctr

/-- generateBeatsFromBPM of rhythm-engine: beat interval 60000/bpm, one
candidate tick per beat up to Math.floor(duration / beatInterval), kept
by the density filter. -/
def generateBeatsFromBPM (bpm duration offset : ℚ) (difficulty : Difficulty)
    (pat : ℕ → Vec3) (rnd : ℕ → ℚ) : List Beat :=
  let config := DIFFICULTY_PRESETS difficulty
  let beatInterval := 60000 / bpm
  let totalBeats := (⌊duration / beatInterval⌋).toNat
  let step := 4 / config.beatDensity
  genLoop config beatInterval offset pat rnd step (List.range totalBeats) 0

/-! ### Adaptive performance controller (PerformanceMonitor) -/

/-- Shadow quality tiers. -/
inductive ShadowQuality
  | off
  | low
  | medium
  | high
deriving DecidableEq

/-- Texture quality tiers. -/
inductive TextureQuality
  | low
  | medium
  | high
deriving DecidableEq

/-- PerformanceConfig of the performance monitor. -/
structure PerformanceConfig where
  targetFps : ℚ
  particleMultiplier : ℚ
  shadowQuality : ShadowQuality
  antialiasing : Bool
  postProcessing : Bool
  maxVisibleBeats : ℕ
  renderDistance : ℚ
  reflections : Bool
  textureQuality : TextureQuality
  autoAdjust : Bool
deriving DecidableEq

/-- DEFAULT_CONFIG. -/
def DEFAULT_CONFIG : PerformanceConfig :=
  { targetFps := 60, particleMultiplier := 1, shadowQuality := .medium
    antialiasing := true, postProcessing := true, maxVisibleBeats := 30
    renderDistance := 15, reflections := true, textureQuality := .medium
    autoAdjust := true }

/-- The shadow-quality downgrade chain of autoAdjustSettings:
high to medium, medium to low, otherwise off. -/
def shadowDown : ShadowQuality → ShadowQuality
  | .high => .medium
  | .medium => .low
  | _ => .off

/-- The shadow-quality upgrade chain of autoAdjustSettings:
off to low, low to medium, otherwise high. -/
def shadowUp : ShadowQuality → ShadowQuality
  | .off => .low
  | .low => .medium
  | _ => .high

/-- PerformanceMonitor.autoAdjustSettings on the current fps sample:
returns the new config and the configChanged flag (the flag is exactly
whether the observers are notified). -/
def autoAdjustSettings (fps : ℚ) (c : PerformanceConfig) : PerformanceConfig × Bool :=
  if fps < c.targetFps * (85 / 100) then
    if 1 / 2 < c.particleMultiplier then
      ({ c with particleMultiplier := max (1 / 2) (c.particleMultiplier - 1 / 10) }, true)
    else if c.postProcessing then ({ c with postProcessing := false }, true)
    else if c.shadowQuality ≠ .off then
      ({ c with shadowQuality := shadowDown c.shadowQuality }, true)
    else if c.antialiasing then ({ c with antialiasing := false }, true)
    else if 15 < c.maxVisibleBeats then ({ c with maxVisibleBeats := 15 }, true)
    else if c.reflections then ({ c with reflections := false }, true)
    else (c, false)
  else if c.targetFps * (95 / 100) < fps then
    if ¬c.reflections then ({ c with reflections := true }, true)
    else if c.maxVisibleBeats < 30 then ({ c with maxVisibleBeats := 30 }, true)
    else if ¬c.antialiasing then ({ c with antialiasing := true }, true)
    else if c.shadowQuality ≠ .high then
      ({ c with shadowQuality := shadowUp c.shadowQuality }, true)
    else if ¬c.postProcessing then ({ c with postProcessing := true }, true)
    else if c.particleMultiplier < 1 then
      ({ c with particleMultiplier := min 1 (c.particleMultiplier + 1 / 10) }, true)
    else (c, false)
  else (c, false)

/-- The six quality knobs that autoAdjustSettings regulates. -/
inductive Knob
  | particles
  | post
  | shadows
  | aa
  | maxBeats
  | reflections
deriving DecidableEq

/-- The fixed degradation priority order. -/
def degradeOrder : List Knob := [.particles, .post, .shadows, .aa, .maxBeats, .reflections]

/-- The fixed upgrade priority order. -/
def upgradeOrder : List Knob := [.reflections, .maxBeats, .aa, .shadows, .post, .particles]

/-- Whether a knob is above its floor, i.e. the guard of its degradation
step. -/
def canDegrade (c : PerformanceConfig) : Knob → Bool
  | .particles => if 1 / 2 < c.particleMultiplier then true else false
  | .post => c.postProcessing
  | .shadows => if c.shadowQuality = .off then false else true
  | .aa => c.antialiasing
  | .maxBeats => if 15 < c.maxVisibleBeats then true else false
  | .reflections => c.reflections

/-- Whether a knob is below its ceiling, i.e. the guard of its upgrade
step. -/
def canUpgrade (c : PerformanceConfig) : Knob → Bool
  | .particles => if c.particleMultiplier < 1 then true else false
  | .post => !c.postProcessing
  | .shadows => if c.shadowQuality = .high then false else true
  | .aa => !c.antialiasing
  | .maxBeats => if c.maxVisibleBeats < 30 then true else false
  | .reflections => !c.reflections

/-- The degradation step of one knob. -/
def degradeAt (c : PerformanceConfig) : Knob → PerformanceConfig
  | .particles => { c with particleMultiplier := max (1 / 2) (c.particleMultiplier - 1 / 10) }
  | .post => { c with postProcessing := false }
  | .shadows => { c with shadowQuality := shadowDown c.shadowQuality }
  | .aa => { c with antialiasing := false }
  | .maxBeats => { c with maxVisibleBeats := 15 }
  | .reflections => { c with reflections := false }

/-- The upgrade step of one knob. -/
def upgradeAt (c : PerformanceConfig) : Knob → PerformanceConfig
  | .particles => { c with particleMultiplier := min 1 (c.particleMultiplier + 1 / 10) }
  | .post => { c with postProcessing := true }
  | .shadows => { c with shadowQuality := shadowUp c.shadowQuality }
  | .aa => { c with antialiasing := true }
  | .maxBeats => { c with maxVisibleBeats := 30 }
  | .reflections => { c with reflections := true }

/-- Two configs agree on the value of one knob. -/
def knobEq (a b : PerformanceConfig) : Knob → Prop
  | .particles => a.particleMultiplier = b.particleMultiplier
  | .post => a.postProcessing = b.postProcessing
  | .shadows => a.shadowQuality = b.shadowQuality
  | .aa => a.antialiasing = b.antialiasing
  | .maxBeats => a.maxVisibleBeats = b.maxVisibleBeats
  | .reflections => a.reflections = b.reflections

/-- Two configs agree on every field that is not a regulated knob. -/
def othersEq (a b : PerformanceConfig) : Prop :=
  a.targetFps = b.targetFps ∧ a.renderDistance = b.renderDistance ∧
  a.textureQuality = b.textureQuality ∧ a.autoAdjust = b.autoAdjust

/-! ### Concrete instances used in witnesses and counterexamples -/

/-- A constant Math.random() stream. -/
def rnd0 : ℕ → ℚ := fun _ => 0

/-- A constant position oracle for the generator. -/
def pat0 : ℕ → Vec3 := fun _ => ⟨0, 0, -3⟩

/-- A game manager freshly started (startGame at wall clock 0) on the
given beat map, with auto play off. -/
def startedGM (beats : List Beat) : GameManager :=
  { state := .playing, beats := beats, activeBeats := [], processedBeats := []
    missedBeats := [], gameStartTime := 0, lastUpdateTime := 0
    stats := initialStats beats.length, autoPlay := false }

/-- A started game manager with an empty beat map. -/
def gmEmpty : GameManager := startedGM []

/-- A performance config with every knob at its floor. -/
def flooredConfig : PerformanceConfig :=
  { targetFps := 60, particleMultiplier := 1 / 2, shadowQuality := .off
    antialiasing := false, postProcessing := false, maxVisibleBeats := 15
    renderDistance := 10, reflections := false, textureQuality := .low
    autoAdjust := true }

/-- A single test beat at time 1000 in front of the player. -/
def beat1000 : Beat := { time := 1000, position := ⟨0, 0, -3⟩ }

/-- Manager with the single beat1000 loaded and started. -/
def gmOne : GameManager := startedGM [beat1000]

/-- Modelled from the claim of C2: the score gain computed from the combo
value before it is incremented for the current hit. -/
def claimedGain (baseScore : ℚ) (comboBefore : ℕ) : ℤ :=
  ⌊baseScore * (1 + ((comboBefore / 10 : ℕ) : ℚ) * (1 / 10))⌋

/-- A stats snapshot with a combo of 9 (nine perfects already hit). -/
def stats9 : GameStats :=
  { score := 900, combo := 9, maxCombo := 9, perfects := 9, goods := 0, misses := 0
    accuracy := 100, totalNotes := 10, hitNotes := 9 }

/-- Manager holding stats9, about to process a tenth hit. -/
def gm9 : GameManager :=
  { state := .playing, beats := [beat1000], activeBeats := [beat1000]
    processedBeats := [], missedBeats := [], gameStartTime := 0
    lastUpdateTime := 950, stats := stats9, autoPlay := false }

/-- Ten beats, one per second, all at the same spot. -/
def tenBeats : List Beat :=
  (List.range 10).map fun i => { time := 1000 * (i : ℚ), position := ⟨0, 0, -3⟩ }

/-- Started manager on the ten-beat map. -/
def gmTen : GameManager := startedGM tenBeats

/-- An update input that hits the spot of the test beats. -/
def hitAt (t : ℚ) : UpdIn := { now := t, hand := some ⟨0, 0, -3⟩, rnd := rnd0 }

/-- An update input with no hand. -/
def idleAt (t : ℚ) : UpdIn := { now := t, hand := none, rnd := rnd0 }

/-- All-perfect session trace on the ten-beat map: one update per beat at
exactly the beat time, hand on the target. -/
def traceAllPerfect : List UpdIn := (List.range 10).map fun i => hitAt (1000 * (i : ℚ))

/-- Half session trace: the first five beats hit perfectly, then five
hand-less updates falling inside the miss window t + 100 < g <= t + 500 of
the remaining beats. -/
def traceHalf : List UpdIn :=
  ((List.range 5).map fun i => hitAt (1000 * (i : ℚ))) ++
    ((List.range 5).map fun i => idleAt (1000 * ((i : ℚ) + 5) + 200))

/-! ### Basic lemmas about the embedded operations -/

@[simp]
theorem mem_insertTime {s t : ℚ} {l : List ℚ} : s ∈ insertTime t l ↔ s = t ∨ s ∈ l := by
  unfold insertTime
  split_ifs with h
  · constructor
    · exact Or.inr
    · rintro (rfl | hs)
      · exact h
      · exact hs
  · exact List.mem_cons

theorem self_mem_insertTime (t : ℚ) (l : List ℚ) : t ∈ insertTime t l := by simp

theorem le_jsAbs_self (q : ℚ) : q ≤ jsAbs q := by
  unfold jsAbs
  split_ifs with h
  · exact le_refl q
  · push_neg at h
    linarith

theorem jsAbs_eq_abs (q : ℚ) : jsAbs q = |q| := by
  unfold jsAbs
  split_ifs with h
  · exact (abs_of_nonneg h).symm
  · push_neg at h
    exact (abs_of_neg h).symm

theorem mem_removeTime {t : ℚ} {l : List Beat} {b : Beat} :
    b ∈ removeTime t l ↔ b ∈ l ∧ b.time ≠ t := by
  induction l with
  | nil => simp [removeTime]
  | cons c rest ih =>
    unfold removeTime
    split_ifs with h
    · rw [ih]
      constructor
      · rintro ⟨hb, hbt⟩
        exact ⟨List.mem_cons_of_mem _ hb, hbt⟩
      · rintro ⟨hb, hbt⟩
        rcases List.mem_cons.mp hb with rfl | hb'
        · exact absurd h hbt
        · exact ⟨hb', hbt⟩
    · constructor
      · intro hb
        rcases List.mem_cons.mp hb with rfl | hb'
        · exact ⟨List.mem_cons_self _ _, h⟩
        · obtain ⟨h1, h2⟩ := ih.mp hb'
          exact ⟨List.mem_cons_of_mem _ h1, h2⟩
      · rintro ⟨hb, hbt⟩
        rcases List.mem_cons.mp hb with rfl | hb'
        · exact List.mem_cons_self _ _
        · exact List.mem_cons_of_mem _ (ih.mpr ⟨hb', hbt⟩)

theorem removeTime_sublist (t : ℚ) (l : List Beat) : (removeTime t l).Sublist l := by
  induction l with
  | nil => simp [removeTime]
  | cons c rest ih =>
    unfold removeTime
    split_ifs with h
    · exact ih.cons c
    · exact ih.cons₂ c

theorem mem_activeFilter {g : ℚ} {proc : List ℚ} {l : List Beat} {b : Beat} :
    b ∈ activeFilter g proc l ↔
      b ∈ l ∧ b.time - 1000 ≤ g ∧ g ≤ b.time + 500 ∧ b.time ∉ proc := by
  induction l with
  | nil => simp [activeFilter]
  | cons c rest ih =>
    unfold activeFilter
    split_ifs with h
    · constructor
      · intro hb
        rcases List.mem_cons.mp hb with rfl | hb'
        · exact ⟨List.mem_cons_self _ _, h⟩
        · obtain ⟨h1, h2⟩ := ih.mp hb'
          exact ⟨List.mem_cons_of_mem _ h1, h2⟩
      · rintro ⟨hb, hwin⟩
        rcases List.mem_cons.mp hb with rfl | hb'
        · exact List.mem_cons_self _ _
        · exact List.mem_cons_of_mem _ (ih.mpr ⟨hb', hwin⟩)
    · rw [ih]
      constructor
      · rintro ⟨hb, hwin⟩
        exact ⟨List.mem_cons_of_mem _ hb, hwin⟩
      · rintro ⟨hb, hwin⟩
        rcases List.mem_cons.mp hb with rfl | hb'
        · exact absurd hwin h
        · exact ⟨hb', hwin⟩

theorem activeFilter_sublist (g : ℚ) (proc : List ℚ) (l : List Beat) :
    (activeFilter g proc l).Sublist l := by
  induction l with
  | nil => simp [activeFilter]
  | cons c rest ih =>
    unfold activeFilter
    split_ifs with h
    · exact ih.cons₂ c
    · exact ih.cons c

@[simp]
theorem calculateAccuracy_score (s : GameStats) : (calculateAccuracy s).score = s.score := by
  unfold calculateAccuracy; split <;> rfl

@[simp]
theorem calculateAccuracy_combo (s : GameStats) : (calculateAccuracy s).combo = s.combo := by
  unfold calculateAccuracy; split <;> rfl

@[simp]
theorem calculateAccuracy_maxCombo (s : GameStats) :
    (calculateAccuracy s).maxCombo = s.maxCombo := by
  unfold calculateAccuracy; split <;> rfl

@[simp]
theorem calculateAccuracy_perfects (s : GameStats) :
    (calculateAccuracy s).perfects = s.perfects := by
  unfold calculateAccuracy; split <;> rfl

@[simp]
theorem calculateAccuracy_goods (s : GameStats) : (calculateAccuracy s).goods = s.goods := by
  unfold calculateAccuracy; split <;> rfl

@[simp]
theorem calculateAccuracy_misses (s : GameStats) : (calculateAccuracy s).misses = s.misses := by
  unfold calculateAccuracy; split <;> rfl

@[simp]
theorem processHit_state (b : Beat) (r : Judgement) (gm : GameManager) :
    (processHit b r gm).state = gm.state := rfl

@[simp]
theorem processHit_beats (b : Beat) (r : Judgement) (gm : GameManager) :
    (processHit b r gm).beats = gm.beats := rfl

@[simp]
theorem processHit_missedBeats (b : Beat) (r : Judgement) (gm : GameManager) :
    (processHit b r gm).missedBeats = gm.missedBeats := rfl

@[simp]
theorem processHit_gameStartTime (b : Beat) (r : Judgement) (gm : GameManager) :
    (processHit b r gm).gameStartTime = gm.gameStartTime := rfl

@[simp]
theorem processHit_lastUpdateTime (b : Beat) (r : Judgement) (gm : GameManager) :
    (processHit b r gm).lastUpdateTime = gm.lastUpdateTime := rfl

@[simp]
theorem processHit_autoPlay (b : Beat) (r : Judgement) (gm : GameManager) :
    (processHit b r gm).autoPlay = gm.autoPlay := rfl

@[simp]
theorem processHit_processedBeats (b : Beat) (r : Judgement) (gm : GameManager) :
    (processHit b r gm).processedBeats = insertTime b.time gm.processedBeats := rfl

@[simp]
theorem processHit_activeBeats (b : Beat) (r : Judgement) (gm : GameManager) :
    (processHit b r gm).activeBeats = removeTime b.time gm.activeBeats := rfl

@[simp]
theorem processHit_stats (b : Beat) (r : Judgement) (gm : GameManager) :
    (processHit b r gm).stats = processHitStats r gm.stats := rfl

@[simp]
theorem recordMiss_state (b : Beat) (gm : GameManager) :
    (recordMiss b gm).state = gm.state := rfl

@[simp]
theorem recordMiss_beats (b : Beat) (gm : GameManager) :
    (recordMiss b gm).beats = gm.beats := rfl

@[simp]
theorem recordMiss_processedBeats (b : Beat) (gm : GameManager) :
    (recordMiss b gm).processedBeats = gm.processedBeats := rfl

@[simp]
theorem recordMiss_activeBeats (b : Beat) (gm : GameManager) :
    (recordMiss b gm).activeBeats = gm.activeBeats := rfl

@[simp]
theorem recordMiss_gameStartTime (b : Beat) (gm : GameManager) :
    (recordMiss b gm).gameStartTime = gm.gameStartTime := rfl

@[simp]
theorem recordMiss_lastUpdateTime (b : Beat) (gm : GameManager) :
    (recordMiss b gm).lastUpdateTime = gm.lastUpdateTime := rfl

@[simp]
theorem recordMiss_autoPlay (b : Beat) (gm : GameManager) :
    (recordMiss b gm).autoPlay = gm.autoPlay := rfl

@[simp]
theorem recordMiss_missedBeats (b : Beat) (gm : GameManager) :
    (recordMiss b gm).missedBeats = insertTime b.time gm.missedBeats := rfl

@[simp]
theorem recordMiss_score (b : Beat) (gm : GameManager) :
    (recordMiss b gm).stats.score = gm.stats.score := by
  unfold recordMiss; simp

/-- The stats combo after a hit: incremented for perfect and good. -/
def hitCombo (r : Judgement) (c : ℕ) : ℕ :=
  match r with
  | .miss => c
  | _ => c + 1

theorem processHitStats_score (r : Judgement) (s : GameStats) :
    (processHitStats r s).score =
      s.score + ⌊scoreBase r * (1 + ((hitCombo r s.combo / 10 : ℕ) : ℚ) * comboBonusStep)⌋ := by
  cases r <;> unfold processHitStats hitCombo <;> simp <;> split <;> simp

theorem processHitStats_score_le (r : Judgement) (s : GameStats) :
    s.score ≤ (processHitStats r s).score := by
  rw [processHitStats_score]
  have hb : (0 : ℚ) ≤ scoreBase r := by cases r <;> norm_num [scoreBase]
  have hbonus : (0 : ℚ) ≤ 1 + ((hitCombo r s.combo / 10 : ℕ) : ℚ) * comboBonusStep := by
    have h0 : (0 : ℚ) ≤ ((hitCombo r s.combo / 10 : ℕ) : ℚ) * comboBonusStep :=
      mul_nonneg (Nat.cast_nonneg _) (by norm_num [comboBonusStep])
    linarith
  have : (0 : ℤ) ≤ ⌊scoreBase r * (1 + ((hitCombo r s.combo / 10 : ℕ) : ℚ) * comboBonusStep)⌋ :=
    Int.floor_nonneg.mpr (mul_nonneg hb hbonus)
  omega

theorem classify_dt (d2 dt : ℚ) (r : Judgement) (h : classify d2 dt = some r) :
    dt ≤ 100 := by
  unfold classify goodWindow at h
  split at h
  · assumption
  · exact absurd h (by simp)

theorem classify_perfect_iff (d2 dt : ℚ) :
    classify d2 dt = some .perfect ↔ d2 ≤ (3 / 10) ^ 2 ∧ dt ≤ 50 := by
  unfold classify perfectWindow goodWindow perfectDistance goodDistance
  by_cases h1 : dt ≤ (100 : ℚ)
  · by_cases h2 : d2 ≤ (3 / 10) ^ 2 ∧ dt ≤ (50 : ℚ)
    · simp [h1, h2]
    · by_cases h3 : d2 ≤ (6 / 10) ^ 2 ∧ dt ≤ (100 : ℚ)
      · simp [h1, h2, h3]
      · simp [h1, h2, h3]
  · have h2 : ¬(d2 ≤ (3 / 10) ^ 2 ∧ dt ≤ (50 : ℚ)) := by
      rintro ⟨-, h⟩
      exact h1 (by linarith)
    simp [h1, h2]

theorem classify_good_iff (d2 dt : ℚ) :
    classify d2 dt = some .good ↔
      ¬(d2 ≤ (3 / 10) ^ 2 ∧ dt ≤ 50) ∧ d2 ≤ (6 / 10) ^ 2 ∧ dt ≤ 100 := by
  unfold classify perfectWindow goodWindow perfectDistance goodDistance
  by_cases h1 : dt ≤ (100 : ℚ)
  · by_cases h2 : d2 ≤ (3 / 10) ^ 2 ∧ dt ≤ (50 : ℚ)
    · simp [h1, h2]
    · by_cases h3 : d2 ≤ (6 / 10) ^ 2 ∧ dt ≤ (100 : ℚ)
      · simp [h1, h2, h3]
      · simp only [if_pos h1, if_neg h2, if_neg h3]
        constructor
        · intro h
          exact absurd h (by simp)
        · rintro ⟨-, h5, h6⟩
          exact absurd ⟨h5, h6⟩ h3
  · simp only [if_neg h1]
    constructor
    · intro h
      exact absurd h (by simp)
    · rintro ⟨-, -, h6⟩
      exact absurd h6 h1

theorem classify_not_miss (d2 dt : ℚ) : classify d2 dt ≠ some .miss := by
  unfold classify
  split_ifs <;> simp

/-! ### Lemmas about the hit-testing loop -/

theorem collideLoop_frame (g : ℚ) (hp : Vec3) (l : List Beat) :
    ∀ gm : GameManager,
      (collideLoop g hp l gm).1.missedBeats = gm.missedBeats ∧
      (collideLoop g hp l gm).1.beats = gm.beats ∧
      (collideLoop g hp l gm).1.state = gm.state ∧
      (collideLoop g hp l gm).1.gameStartTime = gm.gameStartTime ∧
      (collideLoop g hp l gm).1.lastUpdateTime = gm.lastUpdateTime ∧
      (collideLoop g hp l gm).1.autoPlay = gm.autoPlay ∧
      gm.stats.score ≤ (collideLoop g hp l gm).1.stats.score := by
  induction l with
  | nil => intro gm; simp [collideLoop]
  | cons b rest ih =>
    intro gm
    by_cases hmem : b.time ∈ gm.processedBeats
    · simpa only [collideLoop, if_pos hmem] using ih gm
    · cases hcl : classify (distSq hp b.position) (jsAbs (g - b.time)) with
      | none => simpa only [collideLoop, if_neg hmem, hcl] using ih gm
      | some r =>
        obtain ⟨h1, h2, h3, h4, h5, h6, h7⟩ := ih (processHit b r gm)
        simp only [collideLoop, if_neg hmem, hcl]
        simp only [processHit_missedBeats, processHit_beats, processHit_state,
          processHit_gameStartTime, processHit_lastUpdateTime, processHit_autoPlay] at h1 h2 h3 h4 h5 h6
        refine ⟨h1, h2, h3, h4, h5, h6, le_trans ?_ h7⟩
        simp only [processHit_stats]
        exact processHitStats_score_le r gm.stats

theorem collideLoop_proc_mono (g : ℚ) (hp : Vec3) (l : List Beat) :
    ∀ (gm : GameManager) (t : ℚ), t ∈ gm.processedBeats →
      t ∈ (collideLoop g hp l gm).1.processedBeats := by
  induction l with
  | nil => intro gm t ht; simpa [collideLoop] using ht
  | cons b rest ih =>
    intro gm t ht
    by_cases hmem : b.time ∈ gm.processedBeats
    · simpa only [collideLoop, if_pos hmem] using ih gm t ht
    · cases hcl : classify (distSq hp b.position) (jsAbs (g - b.time)) with
      | none => simpa only [collideLoop, if_neg hmem, hcl] using ih gm t ht
      | some r =>
        simp only [collideLoop, if_neg hmem, hcl]
        exact ih (processHit b r gm) t (by simp [ht])

theorem collideLoop_proc_charac (g : ℚ) (hp : Vec3) (l : List Beat) :
    ∀ (gm : GameManager) (t : ℚ), t ∈ (collideLoop g hp l gm).1.processedBeats →
      t ∈ gm.processedBeats ∨ t ∈ (collideLoop g hp l gm).2.map Prod.snd := by
  induction l with
  | nil => intro gm t ht; simp only [collideLoop] at ht; exact Or.inl ht
  | cons b rest ih =>
    intro gm t ht
    by_cases hmem : b.time ∈ gm.processedBeats
    · simpa only [collideLoop, if_pos hmem] using ih gm t (by simpa [collideLoop, hmem] using ht)
    · cases hcl : classify (distSq hp b.position) (jsAbs (g - b.time)) with
      | none =>
        simpa only [collideLoop, if_neg hmem, hcl] using
          ih gm t (by simpa [collideLoop, hmem, hcl] using ht)
      | some r =>
        simp only [collideLoop, if_neg hmem, hcl] at ht ⊢
        rcases ih (processHit b r gm) t ht with hin | hin
        · simp only [processHit_processedBeats, mem_insertTime] at hin
          rcases hin with rfl | hin
          · exact Or.inr (by simp)
          · exact Or.inl hin
        · exact Or.inr (by simp [hin])

theorem collideLoop_events (g : ℚ) (hp : Vec3) (l : List Beat) :
    ∀ (gm : GameManager) (e : GEvent), e ∈ (collideLoop g hp l gm).2 →
      e.2 ∉ gm.processedBeats ∧ e.2 ∈ (collideLoop g hp l gm).1.processedBeats ∧
      ∃ b ∈ l, b.time = e.2 ∧ classify (distSq hp b.position) (jsAbs (g - b.time)) = some e.1 := by
  induction l with
  | nil => intro gm e he; simp [collideLoop] at he
  | cons b rest ih =>
    intro gm e he
    by_cases hmem : b.time ∈ gm.processedBeats
    · obtain ⟨ha, hb, c, hc, hc2⟩ := ih gm e (by simpa [collideLoop, hmem] using he)
      exact ⟨ha, by simpa [collideLoop, hmem] using hb, c, List.mem_cons_of_mem _ hc, hc2⟩
    · cases hcl : classify (distSq hp b.position) (jsAbs (g - b.time)) with
      | none =>
        obtain ⟨ha, hb2, c, hc, hc2⟩ := ih gm e (by simpa [collideLoop, hmem, hcl] using he)
        exact ⟨ha, by simpa [collideLoop, hmem, hcl] using hb2, c, List.mem_cons_of_mem _ hc, hc2⟩
      | some r =>
        simp only [collideLoop, if_neg hmem, hcl] at he ⊢
        rcases List.mem_cons.mp he with rfl | he'
        · refine ⟨hmem, ?_, b, List.mem_cons_self b rest, rfl, hcl⟩
          exact collideLoop_proc_mono g hp rest (processHit b r gm) b.time (by simp)
        · obtain ⟨ha, hb2, c, hc, hc2⟩ := ih (processHit b r gm) e he'
          simp only [processHit_processedBeats, mem_insertTime] at ha
          push_neg at ha
          exact ⟨ha.2, hb2, c, List.mem_cons_of_mem _ hc, hc2⟩

theorem collideLoop_nodup (g : ℚ) (hp : Vec3) (l : List Beat) :
    ∀ gm : GameManager, ((collideLoop g hp l gm).2.map Prod.snd).Nodup := by
  induction l with
  | nil => intro gm; simp [collideLoop]
  | cons b rest ih =>
    intro gm
    by_cases hmem : b.time ∈ gm.processedBeats
    · simpa only [collideLoop, if_pos hmem] using ih gm
    · cases hcl : classify (distSq hp b.position) (jsAbs (g - b.time)) with
      | none => simpa only [collideLoop, if_neg hmem, hcl] using ih gm
      | some r =>
        simp only [collideLoop, if_neg hmem, hcl, List.map_cons, List.nodup_cons]
        refine ⟨?_, ih (processHit b r gm)⟩
        intro hmem2
        obtain ⟨e, he, he2⟩ := List.mem_map.mp hmem2
        obtain ⟨ha, -, -⟩ := collideLoop_events g hp rest (processHit b r gm) e he
        rw [he2] at ha
        exact ha (by simp)

theorem collideLoop_active_sublist (g : ℚ) (hp : Vec3) (l : List Beat) :
    ∀ gm : GameManager, (collideLoop g hp l gm).1.activeBeats.Sublist gm.activeBeats := by
  induction l with
  | nil => intro gm; simp [collideLoop]
  | cons b rest ih =>
    intro gm
    by_cases hmem : b.time ∈ gm.processedBeats
    · simpa only [collideLoop, if_pos hmem] using ih gm
    · cases hcl : classify (distSq hp b.position) (jsAbs (g - b.time)) with
      | none => simpa only [collideLoop, if_neg hmem, hcl] using ih gm
      | some r =>
        simp only [collideLoop, if_neg hmem, hcl]
        refine List.Sublist.trans (ih (processHit b r gm)) ?_
        simp only [processHit_activeBeats]
        exact removeTime_sublist b.time gm.activeBeats

theorem collideLoop_active_keep (g : ℚ) (hp : Vec3) (l : List Beat) :
    ∀ (gm : GameManager) (x : Beat), x ∈ gm.activeBeats →
      x.time ∉ (collideLoop g hp l gm).2.map Prod.snd →
      x ∈ (collideLoop g hp l gm).1.activeBeats := by
  induction l with
  | nil => intro gm x hx _; simpa [collideLoop] using hx
  | cons b rest ih =>
    intro gm x hx hnot
    by_cases hmem : b.time ∈ gm.processedBeats
    · simpa only [collideLoop, if_pos hmem] using
        ih gm x hx (by simpa [collideLoop, hmem] using hnot)
    · cases hcl : classify (distSq hp b.position) (jsAbs (g - b.time)) with
      | none =>
        simpa only [collideLoop, if_neg hmem, hcl] using
          ih gm x hx (by simpa [collideLoop, hmem, hcl] using hnot)
      | some r =>
        simp only [collideLoop, if_neg hmem, hcl] at hnot ⊢
        simp only [List.map_cons, List.mem_cons, not_or] at hnot
        refine ih (processHit b r gm) x ?_ hnot.2
        simp only [processHit_activeBeats]
        exact mem_removeTime.mpr ⟨hx, hnot.1⟩

theorem collideLoop_complete (g : ℚ) (hp : Vec3) (l : List Beat) :
    ∀ (gm : GameManager) (b : Beat) (r : Judgement), (l.map Beat.time).Nodup →
      b ∈ l → b.time ∉ gm.processedBeats →
      classify (distSq hp b.position) (jsAbs (g - b.time)) = some r →
      (r, b.time) ∈ (collideLoop g hp l gm).2 := by
  induction l with
  | nil => intro gm b r _ hb; simp at hb
  | cons c rest ih =>
    intro gm b r hnd hb hproc hcl
    have hnd1 : c.time ∉ rest.map Beat.time ∧ (rest.map Beat.time).Nodup := by
      simpa only [List.map_cons, List.nodup_cons] using hnd
    rcases List.mem_cons.mp hb with rfl | hb'
    · simp only [collideLoop, if_neg hproc, hcl]
      exact List.mem_cons_self _ _
    · have hne : c.time ≠ b.time := fun heq =>
        hnd1.1 (by rw [heq]; exact List.mem_map.mpr ⟨b, hb', rfl⟩)
      have hnd' : (rest.map Beat.time).Nodup := hnd1.2
      by_cases hmem : c.time ∈ gm.processedBeats
      · simp only [collideLoop, if_pos hmem]
        exact ih gm b r hnd' hb' hproc hcl
      · cases hcl2 : classify (distSq hp c.position) (jsAbs (g - c.time)) with
        | none =>
          simp only [collideLoop, if_neg hmem, hcl2]
          exact ih gm b r hnd' hb' hproc hcl
        | some r2 =>
          simp only [collideLoop, if_neg hmem, hcl2]
          refine List.mem_cons_of_mem _ (ih (processHit c r2 gm) b r hnd' hb' ?_ hcl)
          simp only [processHit_processedBeats, mem_insertTime]
          push_neg
          exact ⟨fun h => hne h.symm, hproc⟩

/-! ### Lemmas about the miss-detection loop -/

theorem missLoop_frame (g : ℚ) (l : List Beat) :
    ∀ gm : GameManager,
      (missLoop g l gm).1.processedBeats = gm.processedBeats ∧
      (missLoop g l gm).1.beats = gm.beats ∧
      (missLoop g l gm).1.state = gm.state ∧
      (missLoop g l gm).1.gameStartTime = gm.gameStartTime ∧
      (missLoop g l gm).1.lastUpdateTime = gm.lastUpdateTime ∧
      (missLoop g l gm).1.autoPlay = gm.autoPlay ∧
      (missLoop g l gm).1.activeBeats = gm.activeBeats ∧
      (missLoop g l gm).1.stats.score = gm.stats.score := by
  induction l with
  | nil => intro gm; simp [missLoop]
  | cons b rest ih =>
    intro gm
    by_cases hmem : b.time ∈ gm.processedBeats ∨ b.time ∈ gm.missedBeats
    · simpa only [missLoop, if_pos hmem] using ih gm
    · by_cases hout : b.time + goodWindow < g
      · obtain ⟨h1, h2, h3, h4, h5, h6, h7, h8⟩ := ih (recordMiss b gm)
        simp only [missLoop, if_neg hmem, if_pos hout]
        simp only [recordMiss_processedBeats, recordMiss_beats, recordMiss_state,
          recordMiss_gameStartTime, recordMiss_lastUpdateTime, recordMiss_autoPlay,
          recordMiss_activeBeats, recordMiss_score] at h1 h2 h3 h4 h5 h6 h7 h8
        exact ⟨h1, h2, h3, h4, h5, h6, h7, h8⟩
      · simpa only [missLoop, if_neg hmem, if_neg hout] using ih gm

theorem missLoop_missed_mono (g : ℚ) (l : List Beat) :
    ∀ (gm : GameManager) (t : ℚ), t ∈ gm.missedBeats →
      t ∈ (missLoop g l gm).1.missedBeats := by
  induction l with
  | nil => intro gm t ht; simpa [missLoop] using ht
  | cons b rest ih =>
    intro gm t ht
    by_cases hmem : b.time ∈ gm.processedBeats ∨ b.time ∈ gm.missedBeats
    · simpa only [missLoop, if_pos hmem] using ih gm t ht
    · by_cases hout : b.time + goodWindow < g
      · simp only [missLoop, if_neg hmem, if_pos hout]
        exact ih (recordMiss b gm) t (by simp [ht])
      · simpa only [missLoop, if_neg hmem, if_neg hout] using ih gm t ht

theorem missLoop_missed_charac (g : ℚ) (l : List Beat) :
    ∀ (gm : GameManager) (t : ℚ), t ∈ (missLoop g l gm).1.missedBeats →
      t ∈ gm.missedBeats ∨ t ∈ (missLoop g l gm).2.map Prod.snd := by
  induction l with
  | nil => intro gm t ht; simp only [missLoop] at ht; exact Or.inl ht
  | cons b rest ih =>
    intro gm t ht
    by_cases hmem : b.time ∈ gm.processedBeats ∨ b.time ∈ gm.missedBeats
    · simpa only [missLoop, if_pos hmem] using ih gm t (by simpa [missLoop, hmem] using ht)
    · by_cases hout : b.time + goodWindow < g
      · simp only [missLoop, if_neg hmem, if_pos hout] at ht ⊢
        rcases ih (recordMiss b gm) t ht with hin | hin
        · simp only [recordMiss_missedBeats, mem_insertTime] at hin
          rcases hin with rfl | hin
          · exact Or.inr (by simp)
          · exact Or.inl hin
        · exact Or.inr (by simp [hin])
      · simpa only [missLoop, if_neg hmem, if_neg hout] using
          ih gm t (by simpa [missLoop, hmem, hout] using ht)

theorem missLoop_events (g : ℚ) (l : List Beat) :
    ∀ (gm : GameManager) (e : GEvent), e ∈ (missLoop g l gm).2 →
      e.1 = Judgement.miss ∧ e.2 ∉ gm.processedBeats ∧ e.2 ∉ gm.missedBeats ∧
      e.2 ∈ (missLoop g l gm).1.missedBeats ∧
      ∃ b ∈ l, b.time = e.2 ∧ b.time + goodWindow < g := by
  induction l with
  | nil => intro gm e he; simp [missLoop] at he
  | cons b rest ih =>
    intro gm e he
    by_cases hmem : b.time ∈ gm.processedBeats ∨ b.time ∈ gm.missedBeats
    · obtain ⟨h1, h2, h3, h4, c, hc, hc2⟩ := ih gm e (by simpa [missLoop, hmem] using he)
      exact ⟨h1, h2, h3, by simpa [missLoop, hmem] using h4, c,
        List.mem_cons_of_mem _ hc, hc2⟩
    · push_neg at hmem
      by_cases hout : b.time + goodWindow < g
      · simp only [missLoop, if_neg (by push_neg; exact hmem : ¬(b.time ∈ gm.processedBeats ∨ b.time ∈ gm.missedBeats)), if_pos hout] at he ⊢
        rcases List.mem_cons.mp he with rfl | he'
        · refine ⟨rfl, hmem.1, hmem.2, ?_, b, List.mem_cons_self b rest, rfl, hout⟩
          exact missLoop_missed_mono g rest (recordMiss b gm) b.time (by simp)
        · obtain ⟨h1, h2, h3, h4, c, hc, hc2⟩ := ih (recordMiss b gm) e he'
          simp only [recordMiss_processedBeats] at h2
          simp only [recordMiss_missedBeats, mem_insertTime] at h3
          push_neg at h3
          exact ⟨h1, h2, h3.2, h4, c, List.mem_cons_of_mem _ hc, hc2⟩
      · obtain ⟨h1, h2, h3, h4, c, hc, hc2⟩ := ih gm e
          (by simpa [missLoop, hmem, hout] using he)
        refine ⟨h1, h2, h3, ?_, c, List.mem_cons_of_mem _ hc, hc2⟩
        simpa [missLoop, hmem, hout] using h4

theorem missLoop_nodup (g : ℚ) (l : List Beat) :
    ∀ gm : GameManager, ((missLoop g l gm).2.map Prod.snd).Nodup := by
  induction l with
  | nil => intro gm; simp [missLoop]
  | cons b rest ih =>
    intro gm
    by_cases hmem : b.time ∈ gm.processedBeats ∨ b.time ∈ gm.missedBeats
    · simpa only [missLoop, if_pos hmem] using ih gm
    · by_cases hout : b.time + goodWindow < g
      · simp only [missLoop, if_neg hmem, if_pos hout, List.map_cons, List.nodup_cons]
        refine ⟨?_, ih (recordMiss b gm)⟩
        intro hmem2
        obtain ⟨e, he, he2⟩ := List.mem_map.mp hmem2
        obtain ⟨-, -, h3, -, -⟩ := missLoop_events g rest (recordMiss b gm) e he
        rw [he2] at h3
        exact h3 (by simp)
      · simpa only [missLoop, if_neg hmem, if_neg hout] using ih gm

theorem missLoop_complete (g : ℚ) (l : List Beat) :
    ∀ (gm : GameManager) (b : Beat), (l.map Beat.time).Nodup →
      b ∈ l → b.time ∉ gm.processedBeats → b.time ∉ gm.missedBeats →
      b.time + goodWindow < g →
      (Judgement.miss, b.time) ∈ (missLoop g l gm).2 := by
  induction l with
  | nil => intro gm b _ hb; simp at hb
  | cons c rest ih =>
    intro gm b hnd hb hproc hmiss hout
    have hnd1 : c.time ∉ rest.map Beat.time ∧ (rest.map Beat.time).Nodup := by
      simpa only [List.map_cons, List.nodup_cons] using hnd
    rcases List.mem_cons.mp hb with rfl | hb'
    · simp only [missLoop, if_neg (by push_neg; exact ⟨hproc, hmiss⟩ :
        ¬(b.time ∈ gm.processedBeats ∨ b.time ∈ gm.missedBeats)), if_pos hout]
      exact List.mem_cons_self _ _
    · have hne : c.time ≠ b.time := fun heq =>
        hnd1.1 (by rw [heq]; exact List.mem_map.mpr ⟨b, hb', rfl⟩)
      by_cases hmem : c.time ∈ gm.processedBeats ∨ c.time ∈ gm.missedBeats
      · simp only [missLoop, if_pos hmem]
        exact ih gm b hnd1.2 hb' hproc hmiss hout
      · by_cases hout2 : c.time + goodWindow < g
        · simp only [missLoop, if_neg hmem, if_pos hout2]
          refine List.mem_cons_of_mem _ (ih (recordMiss c gm) b hnd1.2 hb' ?_ ?_ hout)
          · simpa using hproc
          · simp only [recordMiss_missedBeats, mem_insertTime]
            push_neg
            exact ⟨fun h => hne h.symm, hmiss⟩
        · simp only [missLoop, if_neg hmem, if_neg hout2]
          exact ih gm b hnd1.2 hb' hproc hmiss hout

/-! ### Lemmas about the auto-play loop -/

theorem autoLoop_frame (g : ℚ) (rnd : ℕ → ℚ) (l : List Beat) :
    ∀ (k : ℕ) (gm : GameManager),
      (autoLoop g rnd l k gm).1.missedBeats = gm.missedBeats ∧
      (autoLoop g rnd l k gm).1.beats = gm.beats ∧
      (autoLoop g rnd l k gm).1.state = gm.state ∧
      (autoLoop g rnd l k gm).1.gameStartTime = gm.gameStartTime ∧
      (autoLoop g rnd l k gm).1.lastUpdateTime = gm.lastUpdateTime ∧
      (autoLoop g rnd l k gm).1.autoPlay = gm.autoPlay ∧
      gm.stats.score ≤ (autoLoop g rnd l k gm).1.stats.score := by
  induction l with
  | nil => intro k gm; simp [autoLoop]
  | cons b rest ih =>
    intro k gm
    by_cases hmem : b.time ∈ gm.processedBeats
    · simpa only [autoLoop, if_pos hmem] using ih k gm
    · by_cases hnear : jsAbs (g - b.time) < 10
      · set r := if 1 / 5 < rnd k then Judgement.perfect else Judgement.good with hr
        obtain ⟨h1, h2, h3, h4, h5, h6, h7⟩ := ih (k + 1) (processHit b r gm)
        simp only [autoLoop, if_neg hmem, if_pos hnear, ← hr]
        simp only [processHit_missedBeats, processHit_beats, processHit_state,
          processHit_gameStartTime, processHit_lastUpdateTime, processHit_autoPlay] at h1 h2 h3 h4 h5 h6
        refine ⟨h1, h2, h3, h4, h5, h6, le_trans ?_ h7⟩
        simp only [processHit_stats]
        exact processHitStats_score_le r gm.stats
      · simpa only [autoLoop, if_neg hmem, if_neg hnear] using ih k gm

theorem autoLoop_proc_mono (g : ℚ) (rnd : ℕ → ℚ) (l : List Beat) :
    ∀ (k : ℕ) (gm : GameManager) (t : ℚ), t ∈ gm.processedBeats →
      t ∈ (autoLoop g rnd l k gm).1.processedBeats := by
  induction l with
  | nil => intro k gm t ht; simpa [autoLoop] using ht
  | cons b rest ih =>
    intro k gm t ht
    by_cases hmem : b.time ∈ gm.processedBeats
    · simpa only [autoLoop, if_pos hmem] using ih k gm t ht
    · by_cases hnear : jsAbs (g - b.time) < 10
      · simp only [autoLoop, if_neg hmem, if_pos hnear]
        exact ih (k + 1) _ t (by simp [ht])
      · simpa only [autoLoop, if_neg hmem, if_neg hnear] using ih k gm t ht

theorem autoLoop_events (g : ℚ) (rnd : ℕ → ℚ) (l : List Beat) :
    ∀ (k : ℕ) (gm : GameManager) (e : GEvent), e ∈ (autoLoop g rnd l k gm).2 →
      e.1 ≠ Judgement.miss ∧ e.2 ∉ gm.processedBeats ∧
      e.2 ∈ (autoLoop g rnd l k gm).1.processedBeats ∧
      ∃ b ∈ l, b.time = e.2 ∧ jsAbs (g - b.time) < 10 := by
  induction l with
  | nil => intro k gm e he; simp [autoLoop] at he
  | cons b rest ih =>
    intro k gm e he
    by_cases hmem : b.time ∈ gm.processedBeats
    · obtain ⟨h1, h2, h3, c, hc, hc2⟩ := ih k gm e (by simpa [autoLoop, hmem] using he)
      exact ⟨h1, h2, by simpa [autoLoop, hmem] using h3, c, List.mem_cons_of_mem _ hc, hc2⟩
    · by_cases hnear : jsAbs (g - b.time) < 10
      · set r := if 1 / 5 < rnd k then Judgement.perfect else Judgement.good with hr
        have hrm : r ≠ Judgement.miss := by
          rw [hr]; split <;> simp
        simp only [autoLoop, if_neg hmem, if_pos hnear, ← hr] at he ⊢
        rcases List.mem_cons.mp he with rfl | he'
        · refine ⟨hrm, hmem, ?_, b, List.mem_cons_self b rest, rfl, hnear⟩
          exact autoLoop_proc_mono g rnd rest (k + 1) (processHit b r gm) b.time (by simp)
        · obtain ⟨h1, h2, h3, c, hc, hc2⟩ := ih (k + 1) (processHit b r gm) e he'
          simp only [processHit_processedBeats, mem_insertTime] at h2
          push_neg at h2
          exact ⟨h1, h2.2, h3, c, List.mem_cons_of_mem _ hc, hc2⟩
      · obtain ⟨h1, h2, h3, c, hc, hc2⟩ := ih k gm e (by simpa [autoLoop, hmem, hnear] using he)
        exact ⟨h1, h2, by simpa [autoLoop, hmem, hnear] using h3, c,
          List.mem_cons_of_mem _ hc, hc2⟩

theorem autoLoop_proc_charac (g : ℚ) (rnd : ℕ → ℚ) (l : List Beat) :
    ∀ (k : ℕ) (gm : GameManager) (t : ℚ), t ∈ (autoLoop g rnd l k gm).1.processedBeats →
      t ∈ gm.processedBeats ∨ t ∈ (autoLoop g rnd l k gm).2.map Prod.snd := by
  induction l with
  | nil => intro k gm t ht; simp only [autoLoop] at ht; exact Or.inl ht
  | cons b rest ih =>
    intro k gm t ht
    by_cases hmem : b.time ∈ gm.processedBeats
    · simpa only [autoLoop, if_pos hmem] using
        ih k gm t (by simpa [autoLoop, hmem] using ht)
    · by_cases hnear : jsAbs (g - b.time) < 10
      · set r := if 1 / 5 < rnd k then Judgement.perfect else Judgement.good with hr
        simp only [autoLoop, if_neg hmem, if_pos hnear, ← hr] at ht ⊢
        rcases ih (k + 1) (processHit b r gm) t ht with hin | hin
        · simp only [processHit_processedBeats, mem_insertTime] at hin
          rcases hin with rfl | hin
          · exact Or.inr (by simp)
          · exact Or.inl hin
        · exact Or.inr (by simp [hin])
      · simpa only [autoLoop, if_neg hmem, if_neg hnear] using
          ih k gm t (by simpa [autoLoop, hmem, hnear] using ht)

theorem autoLoop_nodup (g : ℚ) (rnd : ℕ → ℚ) (l : List Beat) :
    ∀ (k : ℕ) (gm : GameManager), ((autoLoop g rnd l k gm).2.map Prod.snd).Nodup := by
  induction l with
  | nil => intro k gm; simp [autoLoop]
  | cons b rest ih =>
    intro k gm
    by_cases hmem : b.time ∈ gm.processedBeats
    · simpa only [autoLoop, if_pos hmem] using ih k gm
    · by_cases hnear : jsAbs (g - b.time) < 10
      · set r := if 1 / 5 < rnd k then Judgement.perfect else Judgement.good with hr
        simp only [autoLoop, if_neg hmem, if_pos hnear, ← hr, List.map_cons, List.nodup_cons]
        refine ⟨?_, ih (k + 1) (processHit b r gm)⟩
        intro hmem2
        obtain ⟨e, he, he2⟩ := List.mem_map.mp hmem2
        obtain ⟨-, h2, -, -⟩ := autoLoop_events g rnd rest (k + 1) (processHit b r gm) e he
        rw [he2] at h2
        exact h2 (by simp)
      · simpa only [autoLoop, if_neg hmem, if_neg hnear] using ih k gm

/-! ### Lemmas about the pipeline stages of update -/

@[simp]
theorem updateActiveBeats_state (g : ℚ) (gm : GameManager) :
    (updateActiveBeats g gm).state = gm.state := rfl

@[simp]
theorem updateActiveBeats_beats (g : ℚ) (gm : GameManager) :
    (updateActiveBeats g gm).beats = gm.beats := rfl

@[simp]
theorem updateActiveBeats_processedBeats (g : ℚ) (gm : GameManager) :
    (updateActiveBeats g gm).processedBeats = gm.processedBeats := rfl

@[simp]
theorem updateActiveBeats_missedBeats (g : ℚ) (gm : GameManager) :
    (updateActiveBeats g gm).missedBeats = gm.missedBeats := rfl

@[simp]
theorem updateActiveBeats_gameStartTime (g : ℚ) (gm : GameManager) :
    (updateActiveBeats g gm).gameStartTime = gm.gameStartTime := rfl

@[simp]
theorem updateActiveBeats_lastUpdateTime (g : ℚ) (gm : GameManager) :
    (updateActiveBeats g gm).lastUpdateTime = gm.lastUpdateTime := rfl

@[simp]
theorem updateActiveBeats_autoPlay (g : ℚ) (gm : GameManager) :
    (updateActiveBeats g gm).autoPlay = gm.autoPlay := rfl

@[simp]
theorem updateActiveBeats_stats (g : ℚ) (gm : GameManager) :
    (updateActiveBeats g gm).stats = gm.stats := rfl

theorem mem_updateActiveBeats (g : ℚ) (gm : GameManager) (b : Beat) :
    b ∈ (updateActiveBeats g gm).activeBeats ↔
      b ∈ gm.beats ∧ b.time - 1000 ≤ g ∧ g ≤ b.time + 500 ∧ b.time ∉ gm.processedBeats := by
  unfold updateActiveBeats
  exact mem_activeFilter

theorem checkHC_frame (g : ℚ) (hand : Option Vec3) (gm : GameManager) :
    (checkHandCollisions g hand gm).1.missedBeats = gm.missedBeats ∧
    (checkHandCollisions g hand gm).1.beats = gm.beats ∧
    (checkHandCollisions g hand gm).1.state = gm.state ∧
    (checkHandCollisions g hand gm).1.gameStartTime = gm.gameStartTime ∧
    (checkHandCollisions g hand gm).1.lastUpdateTime = gm.lastUpdateTime ∧
    (checkHandCollisions g hand gm).1.autoPlay = gm.autoPlay ∧
    gm.stats.score ≤ (checkHandCollisions g hand gm).1.stats.score := by
  cases hand with
  | none => simp [checkHandCollisions]
  | some hp => exact collideLoop_frame g hp gm.activeBeats gm

theorem checkHC_proc_mono (g : ℚ) (hand : Option Vec3) (gm : GameManager) (t : ℚ)
    (ht : t ∈ gm.processedBeats) : t ∈ (checkHandCollisions g hand gm).1.processedBeats := by
  cases hand with
  | none => simpa [checkHandCollisions] using ht
  | some hp => exact collideLoop_proc_mono g hp gm.activeBeats gm t ht

theorem checkHC_proc_charac (g : ℚ) (hand : Option Vec3) (gm : GameManager) (t : ℚ)
    (ht : t ∈ (checkHandCollisions g hand gm).1.processedBeats) :
    t ∈ gm.processedBeats ∨ t ∈ (checkHandCollisions g hand gm).2.map Prod.snd := by
  cases hand with
  | none => exact Or.inl (by simpa [checkHandCollisions] using ht)
  | some hp => exact collideLoop_proc_charac g hp gm.activeBeats gm t ht

theorem checkHC_events (g : ℚ) (hand : Option Vec3) (gm : GameManager) (e : GEvent)
    (he : e ∈ (checkHandCollisions g hand gm).2) :
    e.1 ≠ Judgement.miss ∧ e.2 ∉ gm.processedBeats ∧
    e.2 ∈ (checkHandCollisions g hand gm).1.processedBeats ∧ jsAbs (g - e.2) ≤ 100 := by
  cases hand with
  | none => simp [checkHandCollisions] at he
  | some hp =>
    obtain ⟨h1, h2, b, -, hb2, hb3⟩ := collideLoop_events g hp gm.activeBeats gm e he
    refine ⟨?_, h1, h2, ?_⟩
    · intro hm
      rw [hm] at hb3
      exact classify_not_miss _ _ hb3
    · rw [← hb2]
      exact classify_dt _ _ _ hb3

theorem checkHC_nodup (g : ℚ) (hand : Option Vec3) (gm : GameManager) :
    ((checkHandCollisions g hand gm).2.map Prod.snd).Nodup := by
  cases hand with
  | none => simp [checkHandCollisions]
  | some hp => exact collideLoop_nodup g hp gm.activeBeats gm

theorem checkHC_active_sublist (g : ℚ) (hand : Option Vec3) (gm : GameManager) :
    (checkHandCollisions g hand gm).1.activeBeats.Sublist gm.activeBeats := by
  cases hand with
  | none => simp [checkHandCollisions]
  | some hp => exact collideLoop_active_sublist g hp gm.activeBeats gm

theorem checkMB_frame (g : ℚ) (gm : GameManager) :
    (checkMissedBeats g gm).1.processedBeats = gm.processedBeats ∧
    (checkMissedBeats g gm).1.beats = gm.beats ∧
    (checkMissedBeats g gm).1.state = gm.state ∧
    (checkMissedBeats g gm).1.gameStartTime = gm.gameStartTime ∧
    (checkMissedBeats g gm).1.lastUpdateTime = gm.lastUpdateTime ∧
    (checkMissedBeats g gm).1.autoPlay = gm.autoPlay ∧
    (checkMissedBeats g gm).1.activeBeats = gm.activeBeats ∧
    (checkMissedBeats g gm).1.stats.score = gm.stats.score :=
  missLoop_frame g gm.activeBeats gm

theorem checkMB_missed_mono (g : ℚ) (gm : GameManager) (t : ℚ)
    (ht : t ∈ gm.missedBeats) : t ∈ (checkMissedBeats g gm).1.missedBeats :=
  missLoop_missed_mono g gm.activeBeats gm t ht

theorem checkMB_missed_charac (g : ℚ) (gm : GameManager) (t : ℚ)
    (ht : t ∈ (checkMissedBeats g gm).1.missedBeats) :
    t ∈ gm.missedBeats ∨ t ∈ (checkMissedBeats g gm).2.map Prod.snd :=
  missLoop_missed_charac g gm.activeBeats gm t ht

theorem checkMB_events (g : ℚ) (gm : GameManager) (e : GEvent)
    (he : e ∈ (checkMissedBeats g gm).2) :
    e.1 = Judgement.miss ∧ e.2 ∉ gm.processedBeats ∧ e.2 ∉ gm.missedBeats ∧
    e.2 ∈ (checkMissedBeats g gm).1.missedBeats ∧ e.2 + 100 < g := by
  obtain ⟨h1, h2, h3, h4, b, -, hb2, hb3⟩ := missLoop_events g gm.activeBeats gm e he
  refine ⟨h1, h2, h3, h4, ?_⟩
  rw [← hb2]
  simpa [goodWindow] using hb3

theorem checkMB_nodup (g : ℚ) (gm : GameManager) :
    ((checkMissedBeats g gm).2.map Prod.snd).Nodup :=
  missLoop_nodup g gm.activeBeats gm

theorem handleAuto_frame (g : ℚ) (rnd : ℕ → ℚ) (gm : GameManager) :
    (handleAutoPlay g rnd gm).1.missedBeats = gm.missedBeats ∧
    (handleAutoPlay g rnd gm).1.beats = gm.beats ∧
    (handleAutoPlay g rnd gm).1.state = gm.state ∧
    (handleAutoPlay g rnd gm).1.gameStartTime = gm.gameStartTime ∧
    (handleAutoPlay g rnd gm).1.lastUpdateTime = gm.lastUpdateTime ∧
    (handleAutoPlay g rnd gm).1.autoPlay = gm.autoPlay ∧
    gm.stats.score ≤ (handleAutoPlay g rnd gm).1.stats.score :=
  autoLoop_frame g rnd gm.activeBeats 0 gm

theorem handleAuto_proc_mono (g : ℚ) (rnd : ℕ → ℚ) (gm : GameManager) (t : ℚ)
    (ht : t ∈ gm.processedBeats) : t ∈ (handleAutoPlay g rnd gm).1.processedBeats :=
  autoLoop_proc_mono g rnd gm.activeBeats 0 gm t ht

theorem handleAuto_events (g : ℚ) (rnd : ℕ → ℚ) (gm : GameManager) (e : GEvent)
    (he : e ∈ (handleAutoPlay g rnd gm).2) :
    e.1 ≠ Judgement.miss ∧ e.2 ∉ gm.processedBeats ∧
    e.2 ∈ (handleAutoPlay g rnd gm).1.processedBeats ∧ jsAbs (g - e.2) < 10 := by
  obtain ⟨h1, h2, h3, b, -, hb2, hb3⟩ := autoLoop_events g rnd gm.activeBeats 0 gm e he
  exact ⟨h1, h2, h3, hb2 ▸ hb3⟩

theorem handleAuto_nodup (g : ℚ) (rnd : ℕ → ℚ) (gm : GameManager) :
    ((handleAutoPlay g rnd gm).2.map Prod.snd).Nodup :=
  autoLoop_nodup g rnd gm.activeBeats 0 gm

/-! ### Stage lemmas relative to the state entering update -/

theorem hcStage_frame (now : ℚ) (hand : Option Vec3) (gm : GameManager) :
    (hcStage now hand gm).1.missedBeats = gm.missedBeats ∧
    (hcStage now hand gm).1.beats = gm.beats ∧
    (hcStage now hand gm).1.state = gm.state ∧
    (hcStage now hand gm).1.gameStartTime = gm.gameStartTime ∧
    (hcStage now hand gm).1.lastUpdateTime = now ∧
    (hcStage now hand gm).1.autoPlay = gm.autoPlay ∧
    gm.stats.score ≤ (hcStage now hand gm).1.stats.score := by
  unfold hcStage
  obtain ⟨c1, c2, c3, c4, c5, c6, c7⟩ := checkHC_frame (now - gm.gameStartTime) hand
    (updateActiveBeats (now - gm.gameStartTime) { gm with lastUpdateTime := now })
  exact ⟨c1, c2, c3, c4, c5, c6, c7⟩

theorem hcStage_proc_mono (now : ℚ) (hand : Option Vec3) (gm : GameManager) (t : ℚ)
    (ht : t ∈ gm.processedBeats) : t ∈ (hcStage now hand gm).1.processedBeats := by
  unfold hcStage
  exact checkHC_proc_mono _ hand _ t ht

theorem hcStage_proc_charac (now : ℚ) (hand : Option Vec3) (gm : GameManager) (t : ℚ)
    (ht : t ∈ (hcStage now hand gm).1.processedBeats) :
    t ∈ gm.processedBeats ∨ t ∈ (hcStage now hand gm).2.map Prod.snd := by
  unfold hcStage at ht ⊢
  exact checkHC_proc_charac _ hand _ t ht

theorem hcStage_events (now : ℚ) (hand : Option Vec3) (gm : GameManager) (e : GEvent)
    (he : e ∈ (hcStage now hand gm).2) :
    e.1 ≠ Judgement.miss ∧ e.2 ∉ gm.processedBeats ∧
    e.2 ∈ (hcStage now hand gm).1.processedBeats ∧
    jsAbs (now - gm.gameStartTime - e.2) ≤ 100 := by
  unfold hcStage at he ⊢
  exact checkHC_events _ hand _ e he

theorem hcStage_nodup (now : ℚ) (hand : Option Vec3) (gm : GameManager) :
    ((hcStage now hand gm).2.map Prod.snd).Nodup := by
  unfold hcStage
  exact checkHC_nodup _ hand _

theorem mbStage_frame (now : ℚ) (hand : Option Vec3) (gm : GameManager) :
    (mbStage now hand gm).1.processedBeats = (hcStage now hand gm).1.processedBeats ∧
    (mbStage now hand gm).1.beats = gm.beats ∧
    (mbStage now hand gm).1.state = gm.state ∧
    (mbStage now hand gm).1.gameStartTime = gm.gameStartTime ∧
    (mbStage now hand gm).1.lastUpdateTime = now ∧
    (mbStage now hand gm).1.autoPlay = gm.autoPlay ∧
    (mbStage now hand gm).1.activeBeats = (hcStage now hand gm).1.activeBeats ∧
    gm.stats.score ≤ (mbStage now hand gm).1.stats.score := by
  obtain ⟨m1, m2, m3, m4, m5, m6, m7, m8⟩ := checkMB_frame (now - gm.gameStartTime)
    (hcStage now hand gm).1
  obtain ⟨c1, c2, c3, c4, c5, c6, c7⟩ := hcStage_frame now hand gm
  unfold mbStage
  refine ⟨m1, by rw [m2, c2], by rw [m3, c3], by rw [m4, c4], by rw [m5, c5],
    by rw [m6, c6], m7, le_trans c7 (le_of_eq m8.symm)⟩

theorem mbStage_missed_mono (now : ℚ) (hand : Option Vec3) (gm : GameManager) (t : ℚ)
    (ht : t ∈ gm.missedBeats) : t ∈ (mbStage now hand gm).1.missedBeats := by
  unfold mbStage
  refine checkMB_missed_mono _ _ t ?_
  rw [(hcStage_frame now hand gm).1]
  exact ht

theorem mbStage_missed_charac (now : ℚ) (hand : Option Vec3) (gm : GameManager) (t : ℚ)
    (ht : t ∈ (mbStage now hand gm).1.missedBeats) :
    t ∈ gm.missedBeats ∨ t ∈ (mbStage now hand gm).2.map Prod.snd := by
  unfold mbStage at ht ⊢
  rcases checkMB_missed_charac _ _ t ht with hin | hin
  · rw [(hcStage_frame now hand gm).1] at hin
    exact Or.inl hin
  · exact Or.inr hin

theorem mbStage_events (now : ℚ) (hand : Option Vec3) (gm : GameManager) (e : GEvent)
    (he : e ∈ (mbStage now hand gm).2) :
    e.1 = Judgement.miss ∧ e.2 ∉ (hcStage now hand gm).1.processedBeats ∧
    e.2 ∉ gm.processedBeats ∧ e.2 ∉ gm.missedBeats ∧
    e.2 ∈ (mbStage now hand gm).1.missedBeats ∧
    e.2 + 100 < now - gm.gameStartTime := by
  unfold mbStage at he ⊢
  obtain ⟨h1, h2, h3, h4, h5⟩ := checkMB_events _ _ e he
  refine ⟨h1, h2, fun hin => h2 (hcStage_proc_mono now hand gm e.2 hin), ?_, h4, h5⟩
  rw [(hcStage_frame now hand gm).1] at h3
  exact h3

theorem mbStage_nodup (now : ℚ) (hand : Option Vec3) (gm : GameManager) :
    ((mbStage now hand gm).2.map Prod.snd).Nodup := by
  unfold mbStage
  exact checkMB_nodup _ _

theorem auStage_frame (now : ℚ) (hand : Option Vec3) (rnd : ℕ → ℚ) (gm : GameManager) :
    (auStage now hand rnd gm).1.missedBeats = (mbStage now hand gm).1.missedBeats ∧
    (auStage now hand rnd gm).1.beats = gm.beats ∧
    (auStage now hand rnd gm).1.state = gm.state ∧
    (auStage now hand rnd gm).1.gameStartTime = gm.gameStartTime ∧
    (auStage now hand rnd gm).1.lastUpdateTime = now ∧
    (auStage now hand rnd gm).1.autoPlay = gm.autoPlay ∧
    gm.stats.score ≤ (auStage now hand rnd gm).1.stats.score := by
  obtain ⟨m1, m2, m3, m4, m5, m6, m7, m8⟩ := mbStage_frame now hand gm
  unfold auStage
  by_cases hauto : (mbStage now hand gm).1.autoPlay
  · simp only [if_pos hauto]
    obtain ⟨a1, a2, a3, a4, a5, a6, a7⟩ := handleAuto_frame (now - gm.gameStartTime) rnd
      (mbStage now hand gm).1
    exact ⟨a1, by rw [a2, m2], by rw [a3, m3], by rw [a4, m4], by rw [a5, m5],
      by rw [a6, m6], le_trans m8 a7⟩
  · rw [if_neg hauto]
    exact ⟨rfl, m2, m3, m4, m5, m6, m8⟩

theorem auStage_proc_mono (now : ℚ) (hand : Option Vec3) (rnd : ℕ → ℚ) (gm : GameManager)
    (t : ℚ) (ht : t ∈ (mbStage now hand gm).1.processedBeats) :
    t ∈ (auStage now hand rnd gm).1.processedBeats := by
  unfold auStage
  by_cases hauto : (mbStage now hand gm).1.autoPlay
  · simp only [if_pos hauto]
    exact handleAuto_proc_mono _ rnd _ t ht
  · simpa only [if_neg hauto] using ht

theorem auStage_events (now : ℚ) (hand : Option Vec3) (rnd : ℕ → ℚ) (gm : GameManager)
    (e : GEvent) (he : e ∈ (auStage now hand rnd gm).2) :
    e.1 ≠ Judgement.miss ∧ e.2 ∉ (mbStage now hand gm).1.processedBeats ∧
    e.2 ∈ (auStage now hand rnd gm).1.processedBeats ∧
    jsAbs (now - gm.gameStartTime - e.2) < 10 := by
  unfold auStage at he ⊢
  by_cases hauto : (mbStage now hand gm).1.autoPlay
  · simp only [if_pos hauto] at he ⊢
    exact handleAuto_events _ rnd _ e he
  · simp only [if_neg hauto] at he
    exact absurd he (List.not_mem_nil e)

theorem auStage_nodup (now : ℚ) (hand : Option Vec3) (rnd : ℕ → ℚ) (gm : GameManager) :
    ((auStage now hand rnd gm).2.map Prod.snd).Nodup := by
  unfold auStage
  by_cases hauto : (mbStage now hand gm).1.autoPlay
  · simp only [if_pos hauto]
    exact handleAuto_nodup _ rnd _
  · simp [if_neg hauto]

/-! ### Lemmas about one whole update call -/

theorem update_not_playing (now : ℚ) (hand : Option Vec3) (rnd : ℕ → ℚ)
    (gm : GameManager) (hst : gm.state ≠ .playing) :
    update now hand rnd gm = (gm, []) := by
  simp [update, hst]

theorem update_playing_fst (now : ℚ) (hand : Option Vec3) (rnd : ℕ → ℚ)
    (gm : GameManager) (hst : gm.state = .playing) :
    (update now hand rnd gm).1 = (auStage now hand rnd gm).1 := by
  simp [update, hst]

theorem update_playing_snd (now : ℚ) (hand : Option Vec3) (rnd : ℕ → ℚ)
    (gm : GameManager) (hst : gm.state = .playing) :
    (update now hand rnd gm).2 =
      (hcStage now hand gm).2 ++ (mbStage now hand gm).2 ++ (auStage now hand rnd gm).2 := by
  simp [update, hst]

theorem update_frame (now : ℚ) (hand : Option Vec3) (rnd : ℕ → ℚ) (gm : GameManager) :
    (update now hand rnd gm).1.beats = gm.beats ∧
    (update now hand rnd gm).1.state = gm.state ∧
    (update now hand rnd gm).1.gameStartTime = gm.gameStartTime ∧
    (update now hand rnd gm).1.autoPlay = gm.autoPlay ∧
    gm.stats.score ≤ (update now hand rnd gm).1.stats.score := by
  by_cases hst : gm.state = .playing
  · rw [update_playing_fst now hand rnd gm hst]
    obtain ⟨-, a2, a3, a4, -, a6, a7⟩ := auStage_frame now hand rnd gm
    exact ⟨a2, a3, a4, a6, a7⟩
  · simp [update, hst]

theorem update_events (now : ℚ) (hand : Option Vec3) (rnd : ℕ → ℚ) (gm : GameManager)
    (hnow : gm.lastUpdateTime ≤ now)
    (hinv : ∀ t ∈ gm.missedBeats, t + 100 < gm.lastUpdateTime - gm.gameStartTime) :
    ((update now hand rnd gm).2.map Prod.snd).Nodup ∧
    (∀ e ∈ (update now hand rnd gm).2, e.2 ∉ gm.processedBeats ∧ e.2 ∉ gm.missedBeats) ∧
    (∀ t ∈ gm.processedBeats, t ∈ (update now hand rnd gm).1.processedBeats) ∧
    (∀ t ∈ gm.missedBeats, t ∈ (update now hand rnd gm).1.missedBeats) ∧
    (∀ e ∈ (update now hand rnd gm).2,
        e.2 ∈ (update now hand rnd gm).1.processedBeats ∨
        e.2 ∈ (update now hand rnd gm).1.missedBeats) ∧
    (∀ t ∈ (update now hand rnd gm).1.missedBeats,
        t + 100 < (update now hand rnd gm).1.lastUpdateTime -
          (update now hand rnd gm).1.gameStartTime) ∧
    (update now hand rnd gm).1.lastUpdateTime ≤ now := by
  by_cases hst : gm.state = .playing
  case neg =>
    rw [update_not_playing now hand rnd gm hst]
    exact ⟨by simp, by simp, fun t ht => ht, fun t ht => ht, by simp, hinv, hnow⟩
  case pos =>
  have hg : ∀ t ∈ gm.missedBeats, t + 100 < now - gm.gameStartTime := fun t ht =>
    lt_of_lt_of_le (hinv t ht) (by linarith)
  rw [update_playing_fst now hand rnd gm hst, update_playing_snd now hand rnd gm hst]
  obtain ⟨mproc, -, -, -, -, -, -, -⟩ := mbStage_frame now hand gm
  obtain ⟨amiss, -, -, agst, alast, -, -⟩ := auStage_frame now hand rnd gm
  -- membership of the three event blocks in the final sets
  have hin1 : ∀ e ∈ (hcStage now hand gm).2,
      e.2 ∈ (auStage now hand rnd gm).1.processedBeats := by
    intro e he
    refine auStage_proc_mono now hand rnd gm e.2 ?_
    rw [mproc]
    exact (hcStage_events now hand gm e he).2.2.1
  have hin2 : ∀ e ∈ (mbStage now hand gm).2,
      e.2 ∈ (auStage now hand rnd gm).1.missedBeats := by
    intro e he
    rw [amiss]
    exact (mbStage_events now hand gm e he).2.2.2.2.1
  have hin3 : ∀ e ∈ (auStage now hand rnd gm).2,
      e.2 ∈ (auStage now hand rnd gm).1.processedBeats := fun e he =>
    (auStage_events now hand rnd gm e he).2.2.1
  -- freshness of the three event blocks with respect to the entry state
  have hfresh1 : ∀ e ∈ (hcStage now hand gm).2,
      e.2 ∉ gm.processedBeats ∧ e.2 ∉ gm.missedBeats := by
    intro e he
    obtain ⟨-, h2, -, h4⟩ := hcStage_events now hand gm e he
    refine ⟨h2, fun hmem => ?_⟩
    have := hg e.2 hmem
    have habs : now - gm.gameStartTime - e.2 ≤ jsAbs (now - gm.gameStartTime - e.2) := le_jsAbs_self _
    linarith
  have hfresh2 : ∀ e ∈ (mbStage now hand gm).2,
      e.2 ∉ gm.processedBeats ∧ e.2 ∉ gm.missedBeats := by
    intro e he
    obtain ⟨-, -, h3, h4, -, -⟩ := mbStage_events now hand gm e he
    exact ⟨h3, h4⟩
  have hfresh3 : ∀ e ∈ (auStage now hand rnd gm).2,
      e.2 ∉ gm.processedBeats ∧ e.2 ∉ gm.missedBeats := by
    intro e he
    obtain ⟨-, h2, -, h4⟩ := auStage_events now hand rnd gm e he
    refine ⟨fun hmem => h2 ?_, fun hmem => ?_⟩
    · rw [mproc]
      exact hcStage_proc_mono now hand gm e.2 hmem
    · have := hg e.2 hmem
      have habs : now - gm.gameStartTime - e.2 ≤ jsAbs (now - gm.gameStartTime - e.2) := le_jsAbs_self _
      linarith
  refine ⟨?_, ?_, ?_, ?_, ?_, ?_, le_of_eq alast⟩
  · -- nodup of the concatenated event times
    rw [List.map_append, List.map_append, List.nodup_append, List.nodup_append]
    refine ⟨⟨hcStage_nodup now hand gm, mbStage_nodup now hand gm, ?_⟩,
      auStage_nodup now hand rnd gm, ?_⟩
    · intro a ha hb
      obtain ⟨e, he, rfl⟩ := List.mem_map.mp ha
      obtain ⟨f, hf, hef⟩ := List.mem_map.mp hb
      have h1 := (hcStage_events now hand gm e he).2.2.1
      have h2 := (mbStage_events now hand gm f hf).2.1
      rw [hef] at h2
      exact h2 h1
    · intro a ha hb
      obtain ⟨f, hf, hef⟩ := List.mem_map.mp hb
      obtain ⟨-, hf2, -, hf4⟩ := auStage_events now hand rnd gm f hf
      rcases List.mem_append.mp ha with ha1 | ha2
      · obtain ⟨e, he, rfl⟩ := List.mem_map.mp ha1
        have h1 := (hcStage_events now hand gm e he).2.2.1
        rw [hef] at hf2
        rw [mproc] at hf2
        exact hf2 h1
      · obtain ⟨e, he, rfl⟩ := List.mem_map.mp ha2
        have h6 := (mbStage_events now hand gm e he).2.2.2.2.2
        rw [hef] at hf4
        have habs : now - gm.gameStartTime - e.2 ≤ jsAbs (now - gm.gameStartTime - e.2) :=
          le_jsAbs_self _
        linarith
  · -- freshness
    intro e he
    rcases List.mem_append.mp he with he12 | he3
    · rcases List.mem_append.mp he12 with he1 | he2
      · exact hfresh1 e he1
      · exact hfresh2 e he2
    · exact hfresh3 e he3
  · -- processed grows
    intro t ht
    refine auStage_proc_mono now hand rnd gm t ?_
    rw [mproc]
    exact hcStage_proc_mono now hand gm t ht
  · -- missed grows
    intro t ht
    rw [amiss]
    exact mbStage_missed_mono now hand gm t ht
  · -- every event lands in a resolution set
    intro e he
    rcases List.mem_append.mp he with he12 | he3
    · rcases List.mem_append.mp he12 with he1 | he2
      · exact Or.inl (hin1 e he1)
      · exact Or.inr (hin2 e he2)
    · exact Or.inl (hin3 e he3)
  · -- the time invariant on the missed set is maintained
    intro t ht
    rw [alast, agst]
    rw [amiss] at ht
    rcases mbStage_missed_charac now hand gm t ht with hin | hin
    · exact hg t hin
    · obtain ⟨e, he, rfl⟩ := List.mem_map.mp hin
      exact (mbStage_events now hand gm e he).2.2.2.2.2

/-! ### Trace lemmas -/

theorem chain_le_of_head {a b : ℚ} {l : List ℚ} (h : List.Chain' (· ≤ ·) (a :: l))
    (hb : b ≤ a) : List.Chain' (· ≤ ·) (b :: l) := by
  cases l with
  | nil => simp
  | cons c rest =>
    rw [List.chain'_cons] at h ⊢
    exact ⟨le_trans hb h.1, h.2⟩

theorem runTrace_events (tr : List UpdIn) :
    ∀ gm : GameManager,
      List.Chain' (· ≤ ·) (gm.lastUpdateTime :: tr.map UpdIn.now) →
      (∀ t ∈ gm.missedBeats, t + 100 < gm.lastUpdateTime - gm.gameStartTime) →
      ((runTrace gm tr).2.map Prod.snd).Nodup ∧
      (∀ e ∈ (runTrace gm tr).2, e.2 ∉ gm.processedBeats ∧ e.2 ∉ gm.missedBeats) := by
  induction tr with
  | nil => intro gm _ _; simp [runTrace]
  | cons u rest ih =>
    intro gm hchain hinv
    have hchain' : gm.lastUpdateTime ≤ u.now ∧
        List.Chain' (· ≤ ·) (u.now :: rest.map UpdIn.now) := by
      rw [List.map_cons, List.chain'_cons] at hchain
      exact hchain
    obtain ⟨s1, s2, s3, s4, s5, s6, s7⟩ :=
      update_events u.now u.hand u.rnd gm hchain'.1 hinv
    have ihres := ih (update u.now u.hand u.rnd gm).1
      (chain_le_of_head hchain'.2 s7) s6
    have hrw : runTrace gm (u :: rest) =
        ((runTrace (update u.now u.hand u.rnd gm).1 rest).1,
          (update u.now u.hand u.rnd gm).2 ++
            (runTrace (update u.now u.hand u.rnd gm).1 rest).2) := by
      simp [runTrace]
    rw [hrw]
    constructor
    · rw [List.map_append, List.nodup_append]
      refine ⟨s1, ihres.1, ?_⟩
      intro a ha hb
      obtain ⟨e, he, rfl⟩ := List.mem_map.mp ha
      obtain ⟨f, hf, hef⟩ := List.mem_map.mp hb
      have hmem := s5 e he
      have hfresh := ihres.2 f hf
      rw [hef] at hfresh
      rcases hmem with hm | hm
      · exact hfresh.1 hm
      · exact hfresh.2 hm
    · intro e he
      rcases List.mem_append.mp he with he1 | he2
      · exact s2 e he1
      · have hfresh := ihres.2 e he2
        exact ⟨fun hmem => hfresh.1 (s3 e.2 hmem), fun hmem => hfresh.2 (s4 e.2 hmem)⟩

/-! ### Generator lemmas -/

theorem genLoop_step_zero (cfg : DifficultyConfig) (beatInterval offset : ℚ)
    (pat : ℕ → Vec3) (rnd : ℕ → ℚ) (l : List ℕ) :
    ∀ ctr : ℕ, genLoop cfg beatInterval offset pat rnd 0 l ctr = [] := by
  induction l with
  | nil => intro ctr; simp [genLoop]
  | cons i rest ih =>
    intro ctr
    have hk : keepTick i 0 = false := rfl
    simp only [genLoop, hk, Bool.false_eq_true, if_false]
    exact ih ctr

/-! ### Claim theorems -/

/-- C3.  The claim says the density filter keeps the ticks with
i mod floor(4 / beatDensity) = 0 so that the hard difficulty (density 8)
keeps every tick.  In the code floor (4 / 8) = 0 and the JavaScript test
i % 0 !== 0 evaluates to NaN !== 0, which is true for every i, so hard
generates an empty beat map regardless of duration: the code contradicts
the intended density rule.  Evaluated at the failing input
generateBeatsFromBPM(120, 60000, 0, hard), for every position oracle and
random stream. -/
theorem hard_difficulty_generates_no_beats (pat : ℕ → Vec3) (rnd : ℕ → ℚ) :
    generateBeatsFromBPM 120 60000 0 .hard pat rnd = [] := by
  simp only [generateBeatsFromBPM]
  rw [show (4 : ℕ) / (DIFFICULTY_PRESETS .hard).beatDensity = 0 by decide]
  exact genLoop_step_zero _ _ _ _ _ _ _

/-- C9.  Generator totality on short durations: with bpm > 0 and
0 <= duration < 60000/bpm (one beat interval), generateBeatsFromBPM
returns the empty sequence; the embedded generator is a total function,
matching the source, whose loop arithmetic cannot throw. -/
theorem generator_empty_short_duration (bpm duration offset : ℚ)
    (difficulty : Difficulty) (pat : ℕ → Vec3) (rnd : ℕ → ℚ)
    (hbpm : 0 < bpm) (hdur : 0 ≤ duration) (hshort : duration < 60000 / bpm) :
    generateBeatsFromBPM bpm duration offset difficulty pat rnd = [] := by
  have hpos : (0 : ℚ) < 60000 / bpm := by positivity
  have h0 : (0 : ℚ) ≤ duration / (60000 / bpm) := div_nonneg hdur (le_of_lt hpos)
  have h1 : duration / (60000 / bpm) < 1 := (div_lt_one hpos).mpr hshort
  have hfloor : ⌊duration / (60000 / bpm)⌋ = 0 := by
    rw [Int.floor_eq_zero_iff]
    exact ⟨h0, h1⟩
  simp only [generateBeatsFromBPM]
  rw [hfloor]
  simp [genLoop]

/-- C9 witness: bpm 120, duration 0 (any difficulty, any oracles)
generates nothing. -/
theorem generator_empty_short_duration_witness :
    generateBeatsFromBPM 120 0 0 .normal pat0 rnd0 = [] :=
  generator_empty_short_duration 120 0 0 .normal pat0 rnd0 (by norm_num) (by norm_num)
    (by norm_num)

/-- C5.  The claim asserts perfects + goods + misses <= totalNotes across
every sequence of update and endGame calls.  The code violates it: endGame
counts every unresolved beat as a miss without marking it in missedBeats,
and checkGameEnd schedules one deferred endGame per frame once the
audio-end signal holds, so endGame runs more than once and re-counts the
same unresolved beats.  On a one-beat map with no updates, two endGame
calls yield misses = 2 > totalNotes = 1 (after the first call the sum is
still 1, so the single-endGame session satisfies the bound). -/
theorem stats_bound_double_endgame :
    (endGame gmOne).stats.perfects + (endGame gmOne).stats.goods +
        (endGame gmOne).stats.misses = 1 ∧
    (endGame (endGame gmOne)).stats.perfects + (endGame (endGame gmOne)).stats.goods +
        (endGame (endGame gmOne)).stats.misses = 2 ∧
    (endGame (endGame gmOne)).stats.totalNotes = 1 ∧
    ¬((endGame (endGame gmOne)).stats.perfects + (endGame (endGame gmOne)).stats.goods +
        (endGame (endGame gmOne)).stats.misses ≤
      (endGame (endGame gmOne)).stats.totalNotes) := by
  decide

/-- C2 counterexample.  The claim computes the combo bonus from the combo
value before the increment for the current hit.  The code increments
this.stats.combo first and then reads it: with combo 9 before a perfect
hit, the code adds floor (100 * (1 + floor (10/10) * 0.1)) = 110, while
the claimed formula gives floor (100 * (1 + floor (9/10) * 0.1)) = 100. -/
theorem score_gain_before_increment_false :
    (processHit beat1000 .perfect gm9).stats.score - gm9.stats.score = 110 ∧
    claimedGain 100 9 = 100 ∧ ((110 : ℤ) ≠ 100) := by
  refine ⟨?_, ?_, by norm_num⟩
  · norm_num [processHit, processHitStats, calculateAccuracy, gm9, stats9, beat1000,
      scoreBase, comboBonusStep, jsRound]
  · norm_num [claimedGain]

/-- C2 (amended).  The score gained on a hit is
floor (base * (1 + floor (combo' / 10) * 0.1)) where combo' is the combo
after the increment for the current hit, with base 100 for perfect and 50
for good; a miss never touches the score, and the score never decreases
across update calls or endGame. -/
theorem score_gain_after_increment (gm : GameManager) (b : Beat) (r : Judgement)
    (hr : r = Judgement.perfect ∨ r = Judgement.good)
    (now : ℚ) (hand : Option Vec3) (rnd : ℕ → ℚ) :
    scoreBase Judgement.perfect = 100 ∧ scoreBase Judgement.good = 50 ∧
    (processHit b r gm).stats.score = gm.stats.score +
      ⌊scoreBase r * (1 + (((gm.stats.combo + 1) / 10 : ℕ) : ℚ) * (1 / 10))⌋ ∧
    (recordMiss b gm).stats.score = gm.stats.score ∧
    gm.stats.score ≤ (update now hand rnd gm).1.stats.score ∧
    (endGame gm).stats.score = gm.stats.score := by
  refine ⟨rfl, rfl, ?_, recordMiss_score b gm, (update_frame now hand rnd gm).2.2.2.2, ?_⟩
  · rw [processHit_stats, processHitStats_score]
    have hc : hitCombo r gm.stats.combo = gm.stats.combo + 1 := by
      rcases hr with rfl | rfl <;> rfl
    rw [hc]
    norm_num [comboBonusStep]
  · simp [endGame, calculateFinalAccuracy]

/-- C2 witness: the amended gain formula at the concrete tenth hit. -/
theorem score_gain_after_increment_witness :
    (processHit beat1000 .perfect gm9).stats.score = gm9.stats.score +
      ⌊scoreBase Judgement.perfect * (1 + (((gm9.stats.combo + 1) / 10 : ℕ) : ℚ) * (1 / 10))⌋ :=
  (score_gain_after_increment gm9 beat1000 .perfect (Or.inl rfl) 0 none rnd0).2.2.1

/-- C4 counterexample.  The claim says game time is invariant under pause
for every schedule of update calls before the pause.  With an update at
wall clock 1000 and a pause at wall clock 1500, the derived game time at
the pause instant is 1500, but resumeGame shifts the origin by
resume - lastUpdateTime, so at the resume instant (wall clock 2500) the
derived game time is 1000, not 1500. -/
theorem pause_resume_game_time_changes :
    (1500 : ℚ) - (pauseGame (update 1000 none rnd0 gmEmpty).1).gameStartTime = 1500 ∧
    (2500 : ℚ) -
        (resumeGame 2500 (pauseGame (update 1000 none rnd0 gmEmpty).1)).gameStartTime = 1000 ∧
    ((1000 : ℚ) ≠ 1500) := by
  refine ⟨?_, ?_, by norm_num⟩ <;>
    norm_num [update, auStage, mbStage, hcStage, checkHandCollisions, checkMissedBeats,
      handleAutoPlay, collideLoop, missLoop, autoLoop, updateActiveBeats, activeFilter,
      pauseGame, resumeGame, gmEmpty, startedGM]

/-- C4 (amended).  On resume the clock origin advances by
resume time - lastUpdateTime (the wall clock of the last update call, not
of the pause call), so the game time at the instant of resume equals the
game time of the last update before the pause, for every pause duration;
the wall-clock gap between that update and the pauseGame call is excised
as well, so invariance holds relative to the last update, and relative to
the pause instant exactly when pauseGame coincides with the last update. -/
theorem pause_resume_resumes_last_update_time (gm : GameManager)
    (hst : gm.state = .playing) (tu tr : ℚ) (hand : Option Vec3) (rnd : ℕ → ℚ) :
    tr - (resumeGame tr (pauseGame (update tu hand rnd gm).1)).gameStartTime =
      tu - gm.gameStartTime := by
  obtain ⟨-, hstate, hgst, -, -⟩ := update_frame tu hand rnd gm
  have hlast : (update tu hand rnd gm).1.lastUpdateTime = tu := by
    rw [update_playing_fst tu hand rnd gm hst]
    exact (auStage_frame tu hand rnd gm).2.2.2.2.1
  have hplay : (update tu hand rnd gm).1.state = .playing := by rw [hstate, hst]
  unfold pauseGame
  rw [if_pos hplay]
  unfold resumeGame
  rw [if_pos rfl]
  simp only [hgst, hlast]
  ring

/-- C4 witness: the amended statement at the concrete schedule of the
counterexample. -/
theorem pause_resume_resumes_last_update_time_witness :
    (2500 : ℚ) -
        (resumeGame 2500 (pauseGame (update 1000 none rnd0 gmEmpty).1)).gameStartTime =
      1000 - gmEmpty.gameStartTime :=
  pause_resume_resumes_last_update_time gmEmpty rfl 1000 2500 none rnd0

/-- C8.  calculateAccuracy leaves the accuracy unchanged while the judged
count is 0 and otherwise sets it to
round (100 * (perfects * 100 + goods * 60) / (judged * 100)); running the
real per-frame pipeline, an all-perfect ten-note session ends (through
endGame) with accuracy 100 and a five-perfect five-miss session with
accuracy 50. -/
theorem accuracy_formula_and_sessions (s : GameStats) :
    ((calculateAccuracy s).accuracy =
      if s.perfects + s.goods + s.misses = 0 then s.accuracy
      else jsRound (100 * ((s.perfects : ℚ) * 100 + (s.goods : ℚ) * 60) /
        (((s.perfects + s.goods + s.misses : ℕ) : ℚ) * 100))) ∧
    (endGame (runTrace gmTen traceAllPerfect).1).stats.accuracy = 100 ∧
    (endGame (runTrace gmTen traceHalf).1).stats.accuracy = 50 := by
  refine ⟨?_, ?_, ?_⟩
  · unfold calculateAccuracy
    split_ifs with h
    · rfl
    · simp only
      congr 1
      ring
  · norm_num [runTrace, update, auStage, mbStage, hcStage, checkHandCollisions,
      checkMissedBeats, handleAutoPlay, collideLoop, missLoop, autoLoop, updateActiveBeats,
      activeFilter, processHit, processHitStats, recordMiss, calculateAccuracy, insertTime,
      removeTime, classify, distSq, jsAbs, jsRound, endGame, calculateFinalAccuracy,
      countUnresolved, goodWindow, perfectWindow, perfectDistance, goodDistance, scoreBase,
      comboBonusStep, gmTen, tenBeats, startedGM, traceAllPerfect, traceHalf, hitAt, idleAt,
      rnd0, initialStats, List.range_succ]
  · norm_num [runTrace, update, auStage, mbStage, hcStage, checkHandCollisions,
      checkMissedBeats, handleAutoPlay, collideLoop, missLoop, autoLoop, updateActiveBeats,
      activeFilter, processHit, processHitStats, recordMiss, calculateAccuracy, insertTime,
      removeTime, classify, distSq, jsAbs, jsRound, endGame, calculateFinalAccuracy,
      countUnresolved, goodWindow, perfectWindow, perfectDistance, goodDistance, scoreBase,
      comboBonusStep, gmTen, tenBeats, startedGM, traceAllPerfect, traceHalf, hitAt, idleAt,
      rnd0, initialStats, List.range_succ]

/-- C6.  Over any sequence of update calls with a monotone wall clock,
starting from a state whose missed set already satisfies the timeout
invariant, the emitted judgement event times are pairwise distinct and
fresh: every target time is resolved to at most one of perfect, good or
miss across the whole trace, a target already judged (processed or
missed) is never judged again, a missed target is never later resolved as
a hit and a hit target is never later counted as a missed beat. -/
theorem targets_resolve_at_most_once (gm : GameManager) (tr : List UpdIn)
    (hchain : List.Chain' (· ≤ ·) (gm.lastUpdateTime :: tr.map UpdIn.now))
    (hinv : ∀ t ∈ gm.missedBeats, t + 100 < gm.lastUpdateTime - gm.gameStartTime) :
    ((runTrace gm tr).2.map Prod.snd).Nodup ∧
    ∀ e ∈ (runTrace gm tr).2, e.2 ∉ gm.processedBeats ∧ e.2 ∉ gm.missedBeats :=
  runTrace_events tr gm hchain hinv

/-- C6 witness: the all-perfect ten-note trace emits ten pairwise
distinct event times. -/
theorem targets_resolve_at_most_once_witness :
    ((runTrace gmTen traceAllPerfect).2.map Prod.snd).Nodup :=
  (targets_resolve_at_most_once gmTen traceAllPerfect
    (by norm_num [gmTen, startedGM, traceAllPerfect, hitAt, List.range_succ, rnd0])
    (by norm_num [gmTen, startedGM])).1

theorem eq_of_mem_of_nodup_map {α β : Type} {f : α → β} {l : List α}
    (hnd : (l.map f).Nodup) {a b : α} (ha : a ∈ l) (hb : b ∈ l) (h : f a = f b) :
    a = b := by
  induction l with
  | nil => simp at ha
  | cons c rest ih =>
    simp only [List.map_cons, List.nodup_cons] at hnd
    rcases List.mem_cons.mp ha with rfl | ha' <;> rcases List.mem_cons.mp hb with rfl | hb'
    · rfl
    · exact absurd (by rw [h]; exact List.mem_map.mpr ⟨b, hb', rfl⟩) hnd.1
    · exact absurd (by rw [← h]; exact List.mem_map.mpr ⟨a, ha', rfl⟩) hnd.1
    · exact ih hnd.2 ha' hb'

theorem hcStage_some (now : ℚ) (hp : Vec3) (gm : GameManager) :
    hcStage now (some hp) gm =
      collideLoop (now - gm.gameStartTime) hp
        (updateActiveBeats (now - gm.gameStartTime)
          { gm with lastUpdateTime := now }).activeBeats
        (updateActiveBeats (now - gm.gameStartTime) { gm with lastUpdateTime := now }) := rfl

theorem hcStage_none (now : ℚ) (gm : GameManager) :
    hcStage now none gm =
      (updateActiveBeats (now - gm.gameStartTime) { gm with lastUpdateTime := now }, []) := rfl

theorem mbStage_eq (now : ℚ) (hand : Option Vec3) (gm : GameManager) :
    mbStage now hand gm =
      missLoop (now - gm.gameStartTime) (hcStage now hand gm).1.activeBeats
        (hcStage now hand gm).1 := rfl

/-- C10.  During play a miss is recorded for a target only on an update
call whose game time lies in (target.time + 100, target.time + 500] (the
target must still be inside the active window when the timeout check
runs); update calls whose game times skip that interval record nothing,
and the target is only added to the miss count by endGame, which leaves
the combo untouched and adds exactly the number of unresolved beats to
the miss counter. -/
theorem miss_window_and_final_count (gm : GameManager) (now : ℚ) (hand : Option Vec3)
    (rnd : ℕ → ℚ) (t : ℚ) :
    ((Judgement.miss, t) ∈ (update now hand rnd gm).2 →
      t + 100 < now - gm.gameStartTime ∧ now - gm.gameStartTime ≤ t + 500) ∧
    (endGame gm).stats.combo = gm.stats.combo ∧
    (endGame gm).stats.misses =
      gm.stats.misses + countUnresolved gm.processedBeats gm.missedBeats gm.beats := by
  refine ⟨?_, by simp [endGame, calculateFinalAccuracy], by simp [endGame, calculateFinalAccuracy]⟩
  intro hmiss
  by_cases hst : gm.state = .playing
  · rw [update_playing_snd now hand rnd gm hst] at hmiss
    rcases List.mem_append.mp hmiss with h12 | h3
    · rcases List.mem_append.mp h12 with h1 | h2
      · exact absurd rfl (hcStage_events now hand gm _ h1).1
      · rw [mbStage_eq] at h2
        obtain ⟨-, -, -, -, b, hb, hbt, hout⟩ := missLoop_events _ _ _ _ h2
        have hb2 : b ∈ (updateActiveBeats (now - gm.gameStartTime)
            { gm with lastUpdateTime := now }).activeBeats := by
          cases hand with
          | none => rwa [hcStage_none] at hb
          | some hp =>
            rw [hcStage_some] at hb
            exact (collideLoop_active_sublist _ hp _ _).subset hb
        rw [mem_updateActiveBeats] at hb2
        have hbt' : b.time = t := hbt
        rw [hbt'] at hb2
        have hout' : t + goodWindow < now - gm.gameStartTime := hbt' ▸ hout
        exact ⟨by simpa [goodWindow] using hout', hb2.2.2.1⟩
    · exact absurd rfl (auStage_events now hand rnd gm _ h3).1
  · rw [update_not_playing now hand rnd gm hst] at hmiss
    exact absurd hmiss (List.not_mem_nil _)

/-- C10 witness: on the one-beat map an update at wall clock 1200 records
the miss, and the game time 1200 lies in the window (1100, 1500]. -/
theorem miss_window_and_final_count_witness :
    (1000 : ℚ) + 100 < 1200 - gmOne.gameStartTime ∧
      1200 - gmOne.gameStartTime ≤ 1000 + 500 :=
  (miss_window_and_final_count gmOne 1200 none rnd0 1000).1
    (by norm_num [update, auStage, mbStage, hcStage, checkHandCollisions, checkMissedBeats,
      handleAutoPlay, collideLoop, missLoop, autoLoop, updateActiveBeats, activeFilter,
      recordMiss, calculateAccuracy, insertTime, gmOne, startedGM, beat1000, goodWindow,
      jsRound, initialStats])

/-- C1.  Per-frame judgement classification on an update call in the
playing state (auto play off), for a target b of the map (unique times)
that is unresolved and inside the active window at game time
g = now - gameStartTime: with the hand present it is judged perfect
exactly when the squared hand distance is within 0.3 squared and
the time difference within 50 ms; otherwise good exactly when within 0.6
squared and 100 ms; once g exceeds time + 100 the target is marked miss
on that very call; while the time difference is within the 100 ms window
no miss is emitted; and without a hand position every emitted judgement
is a miss — absence of a hand never yields a hit. -/
theorem judgement_classification_per_frame (gm : GameManager) (now : ℚ) (hp : Vec3)
    (rnd : ℕ → ℚ) (b : Beat)
    (hst : gm.state = .playing) (hauto : gm.autoPlay = false)
    (hnd : (gm.beats.map Beat.time).Nodup) (hb : b ∈ gm.beats)
    (hunproc : b.time ∉ gm.processedBeats) (hunmiss : b.time ∉ gm.missedBeats)
    (hwin1 : b.time - 1000 ≤ now - gm.gameStartTime)
    (hwin2 : now - gm.gameStartTime ≤ b.time + 500) :
    ((Judgement.perfect, b.time) ∈ (update now (some hp) rnd gm).2 ↔
      distSq hp b.position ≤ (3 / 10) ^ 2 ∧
        jsAbs (now - gm.gameStartTime - b.time) ≤ 50) ∧
    ((Judgement.good, b.time) ∈ (update now (some hp) rnd gm).2 ↔
      ¬(distSq hp b.position ≤ (3 / 10) ^ 2 ∧
          jsAbs (now - gm.gameStartTime - b.time) ≤ 50) ∧
        distSq hp b.position ≤ (6 / 10) ^ 2 ∧
        jsAbs (now - gm.gameStartTime - b.time) ≤ 100) ∧
    (b.time + 100 < now - gm.gameStartTime →
      (Judgement.miss, b.time) ∈ (update now (some hp) rnd gm).2 ∧
        b.time ∈ (update now (some hp) rnd gm).1.missedBeats) ∧
    (jsAbs (now - gm.gameStartTime - b.time) ≤ 100 →
      (Judgement.miss, b.time) ∉ (update now (some hp) rnd gm).2) ∧
    (∀ e ∈ (update now none rnd gm).2, e.1 = Judgement.miss) := by
  have hb2 : b ∈ (updateActiveBeats (now - gm.gameStartTime)
      { gm with lastUpdateTime := now }).activeBeats :=
    (mem_updateActiveBeats _ _ b).mpr ⟨hb, hwin1, hwin2, hunproc⟩
  have hnd2 : ((updateActiveBeats (now - gm.gameStartTime)
      { gm with lastUpdateTime := now }).activeBeats.map Beat.time).Nodup :=
    hnd.sublist ((activeFilter_sublist _ _ _).map Beat.time)
  have he3 : ∀ hand, (auStage now hand rnd gm).2 = [] := by
    intro hand
    have hauto4 : (mbStage now hand gm).1.autoPlay = false := by
      rw [(mbStage_frame now hand gm).2.2.2.2.2.1]
      exact hauto
    unfold auStage
    rw [if_neg (by rw [hauto4]; simp)]
  have hfwd : ∀ r, classify (distSq hp b.position)
      (jsAbs (now - gm.gameStartTime - b.time)) = some r →
      (r, b.time) ∈ (update now (some hp) rnd gm).2 := by
    intro r hcl
    rw [update_playing_snd now (some hp) rnd gm hst]
    refine List.mem_append_left _ (List.mem_append_left _ ?_)
    rw [hcStage_some]
    exact collideLoop_complete _ hp _ _ b r hnd2 hb2 hunproc hcl
  have hbwd : ∀ r, (r, b.time) ∈ (update now (some hp) rnd gm).2 →
      r ≠ Judgement.miss →
      classify (distSq hp b.position)
        (jsAbs (now - gm.gameStartTime - b.time)) = some r := by
    intro r hr hrm
    rw [update_playing_snd now (some hp) rnd gm hst] at hr
    rcases List.mem_append.mp hr with h12 | h3
    · rcases List.mem_append.mp h12 with h1 | h2
      · rw [hcStage_some] at h1
        obtain ⟨-, -, b', hb', hbt', hcl'⟩ := collideLoop_events _ hp _ _ _ h1
        have hbb : b' = b := eq_of_mem_of_nodup_map hnd2 hb' hb2 hbt'
        rw [hbb] at hcl'
        exact hcl'
      · exact absurd (mbStage_events now (some hp) gm _ h2).1 hrm
    · rw [he3 (some hp)] at h3
      exact absurd h3 (List.not_mem_nil _)
  refine ⟨?_, ?_, ?_, ?_, ?_⟩
  · constructor
    · intro hr
      exact (classify_perfect_iff _ _).mp (hbwd _ hr (by simp))
    · intro hc
      exact hfwd _ ((classify_perfect_iff _ _).mpr hc)
  · constructor
    · intro hr
      exact (classify_good_iff _ _).mp (hbwd _ hr (by simp))
    · intro hc
      exact hfwd _ ((classify_good_iff _ _).mpr hc)
  · intro hout
    have hne1 : b.time ∉ (hcStage now (some hp) gm).2.map Prod.snd := by
      intro hmem
      obtain ⟨e, he, he2⟩ := List.mem_map.mp hmem
      have hdt := (hcStage_events now (some hp) gm e he).2.2.2
      rw [he2] at hdt
      have := le_jsAbs_self (now - gm.gameStartTime - b.time)
      linarith
    have hb3 : b ∈ (hcStage now (some hp) gm).1.activeBeats := by
      rw [hcStage_some] at hne1 ⊢
      exact collideLoop_active_keep _ hp _ _ b hb2 hne1
    have hproc3 : b.time ∉ (hcStage now (some hp) gm).1.processedBeats := by
      intro hmem
      rcases hcStage_proc_charac now (some hp) gm b.time hmem with h | h
      · exact hunproc h
      · exact hne1 h
    have hmiss3 : b.time ∉ (hcStage now (some hp) gm).1.missedBeats := by
      rw [(hcStage_frame now (some hp) gm).1]
      exact hunmiss
    have hnd3 : ((hcStage now (some hp) gm).1.activeBeats.map Beat.time).Nodup := by
      rw [hcStage_some]
      exact hnd2.sublist ((collideLoop_active_sublist _ hp _ _).map Beat.time)
    have hm : (Judgement.miss, b.time) ∈ (mbStage now (some hp) gm).2 := by
      rw [mbStage_eq]
      exact missLoop_complete _ _ _ b hnd3 hb3 hproc3 hmiss3
        (by simpa [goodWindow] using hout)
    refine ⟨?_, ?_⟩
    · rw [update_playing_snd now (some hp) rnd gm hst]
      exact List.mem_append_left _ (List.mem_append_right _ hm)
    · rw [update_playing_fst now (some hp) rnd gm hst,
        (auStage_frame now (some hp) rnd gm).1]
      exact (mbStage_events now (some hp) gm _ hm).2.2.2.2.1
  · intro hdt hmem
    rw [update_playing_snd now (some hp) rnd gm hst] at hmem
    rcases List.mem_append.mp hmem with h12 | h3
    · rcases List.mem_append.mp h12 with h1 | h2
      · exact absurd rfl (hcStage_events now (some hp) gm _ h1).1
      · have hout := (mbStage_events now (some hp) gm _ h2).2.2.2.2.2
        have := le_jsAbs_self (now - gm.gameStartTime - b.time)
        simp only at hout
        linarith
    · rw [he3 (some hp)] at h3
      exact absurd h3 (List.not_mem_nil _)
  · intro e he
    rw [update_playing_snd now none rnd gm hst] at he
    rcases List.mem_append.mp he with h12 | h3
    · rcases List.mem_append.mp h12 with h1 | h2
      · rw [hcStage_none] at h1
        exact absurd h1 (List.not_mem_nil _)
      · exact (mbStage_events now none gm _ h2).1
    · rw [he3 none] at h3
      exact absurd h3 (List.not_mem_nil _)

/-- C1 witness: on the one-beat map, an update at the exact beat time
with the hand on the target yields the perfect judgement. -/
theorem judgement_classification_per_frame_witness :
    (Judgement.perfect, beat1000.time) ∈
      (update 1000 (some ⟨0, 0, -3⟩) rnd0 gmOne).2 :=
  (judgement_classification_per_frame gmOne 1000 ⟨0, 0, -3⟩ rnd0 beat1000 rfl rfl
      (by simp [gmOne, startedGM, beat1000]) (by simp [gmOne, startedGM])
      (by simp [gmOne, startedGM]) (by simp [gmOne, startedGM])
      (by norm_num [gmOne, startedGM, beat1000])
      (by norm_num [gmOne, startedGM, beat1000])).1.mpr
    (by norm_num [distSq, beat1000, gmOne, startedGM, jsAbs])

theorem autoAdjust_degrade (c : PerformanceConfig) (fps : ℚ)
    (hlow : fps < c.targetFps * (85 / 100)) :
    autoAdjustSettings fps c =
      match degradeOrder.find? (canDegrade c) with
      | some k => (degradeAt c k, true)
      | none => (c, false) := by
  unfold autoAdjustSettings degradeOrder
  rw [if_pos hlow]
  by_cases h1 : 1 / 2 < c.particleMultiplier
  · rw [if_pos h1, List.find?_cons_of_pos _ (by simp only [canDegrade]; rw [if_pos h1])]
    rfl
  · rw [if_neg h1, List.find?_cons_of_neg _
      (by simp only [canDegrade]; rw [if_neg h1]; simp)]
    by_cases h2 : c.postProcessing = true
    · rw [if_pos h2, List.find?_cons_of_pos _ (by simpa [canDegrade] using h2)]
      rfl
    · rw [if_neg h2, List.find?_cons_of_neg _ (by simpa [canDegrade] using h2)]
      by_cases h3 : c.shadowQuality = .off
      · rw [if_neg (not_not_intro h3), List.find?_cons_of_neg _ (by simp [canDegrade, h3])]
        by_cases h4 : c.antialiasing = true
        · rw [if_pos h4, List.find?_cons_of_pos _ (by simpa [canDegrade] using h4)]
          rfl
        · rw [if_neg h4, List.find?_cons_of_neg _ (by simpa [canDegrade] using h4)]
          by_cases h5 : 15 < c.maxVisibleBeats
          · rw [if_pos h5, List.find?_cons_of_pos _ (by simp [canDegrade, h5])]
            rfl
          · rw [if_neg h5, List.find?_cons_of_neg _ (by simp [canDegrade, h5])]
            by_cases h6 : c.reflections = true
            · rw [if_pos h6, List.find?_cons_of_pos _ (by simpa [canDegrade] using h6)]
              rfl
            · rw [if_neg h6, List.find?_cons_of_neg _ (by simpa [canDegrade] using h6)]
              rfl
      · rw [if_pos h3, List.find?_cons_of_pos _ (by simp [canDegrade, h3])]
        rfl

theorem autoAdjust_upgrade (c : PerformanceConfig) (fps : ℚ)
    (hnotlow : ¬fps < c.targetFps * (85 / 100))
    (hhigh : c.targetFps * (95 / 100) < fps) :
    autoAdjustSettings fps c =
      match upgradeOrder.find? (canUpgrade c) with
      | some k => (upgradeAt c k, true)
      | none => (c, false) := by
  unfold autoAdjustSettings upgradeOrder
  rw [if_neg hnotlow, if_pos hhigh]
  by_cases h1 : c.reflections = true
  · rw [if_neg (by simp [h1]), List.find?_cons_of_neg _ (by simpa [canUpgrade] using h1)]
    by_cases h2 : c.maxVisibleBeats < 30
    · rw [if_pos h2, List.find?_cons_of_pos _ (by simp [canUpgrade, h2])]
      rfl
    · rw [if_neg h2, List.find?_cons_of_neg _ (by simp [canUpgrade, h2])]
      by_cases h3 : c.antialiasing = true
      · rw [if_neg (by simp [h3]), List.find?_cons_of_neg _ (by simpa [canUpgrade] using h3)]
        by_cases h4 : c.shadowQuality = .high
        · rw [if_neg (not_not_intro h4),
            List.find?_cons_of_neg _ (by simp [canUpgrade, h4])]
          by_cases h5 : c.postProcessing = true
          · rw [if_neg (by simp [h5]),
              List.find?_cons_of_neg _ (by simpa [canUpgrade] using h5)]
            by_cases h6 : c.particleMultiplier < 1
            · rw [if_pos h6,
                List.find?_cons_of_pos _ (by simp only [canUpgrade]; rw [if_pos h6])]
              rfl
            · rw [if_neg h6, List.find?_cons_of_neg _
                (by simp only [canUpgrade]; rw [if_neg h6]; simp)]
              rfl
          · rw [if_pos (by simpa using h5),
              List.find?_cons_of_pos _ (by simpa [canUpgrade] using h5)]
            rfl
        · rw [if_pos h4, List.find?_cons_of_pos _ (by simp [canUpgrade, h4])]
          rfl
      · rw [if_pos (by simpa using h3),
          List.find?_cons_of_pos _ (by simpa [canUpgrade] using h3)]
        rfl
  · rw [if_pos (by simpa using h1), List.find?_cons_of_pos _ (by simpa [canUpgrade] using h1)]
    rfl

/-- C7.  The adaptive controller: inside the hysteresis band
[0.85 target, 0.95 target] nothing changes; below the band exactly the
first knob of the fixed degradation priority order that is above its
floor is stepped (and only that knob, with every non-knob field
untouched); above the band (with a nonnegative target) the same in the
reversed order with the upgrade steps; when every knob is saturated the
config is returned unchanged with the changed flag false, so no observer
is notified. -/
theorem adaptive_controller_regulation (c : PerformanceConfig) (fps : ℚ) :
    (c.targetFps * (85 / 100) ≤ fps → fps ≤ c.targetFps * (95 / 100) →
      autoAdjustSettings fps c = (c, false)) ∧
    (fps < c.targetFps * (85 / 100) →
      ((∀ k, canDegrade c k = false) → autoAdjustSettings fps c = (c, false)) ∧
      ∀ k, degradeOrder.find? (canDegrade c) = some k →
        autoAdjustSettings fps c = (degradeAt c k, true)) ∧
    (0 ≤ c.targetFps → c.targetFps * (95 / 100) < fps →
      ((∀ k, canUpgrade c k = false) → autoAdjustSettings fps c = (c, false)) ∧
      ∀ k, upgradeOrder.find? (canUpgrade c) = some k →
        autoAdjustSettings fps c = (upgradeAt c k, true)) ∧
    upgradeOrder = degradeOrder.reverse ∧
    (∀ k k2, k ≠ k2 → knobEq c (degradeAt c k) k2 ∧ knobEq c (upgradeAt c k) k2) ∧
    (∀ k, othersEq c (degradeAt c k) ∧ othersEq c (upgradeAt c k)) ∧
    (∀ k, canDegrade c k = true → ¬knobEq c (degradeAt c k) k) ∧
    (∀ k, canUpgrade c k = true → ¬knobEq c (upgradeAt c k) k) := by
  refine ⟨?_, ?_, ?_, by decide, ?_, ?_, ?_, ?_⟩
  · intro hge hle
    unfold autoAdjustSettings
    rw [if_neg (not_lt.mpr hge), if_neg (not_lt.mpr hle)]
  · intro hlow
    constructor
    · intro hsat
      rw [autoAdjust_degrade c fps hlow,
        List.find?_eq_none.mpr (fun k _ => by simp [hsat k])]
    · intro k hk
      rw [autoAdjust_degrade c fps hlow, hk]
  · intro htf hhigh
    have hnotlow : ¬fps < c.targetFps * (85 / 100) := by
      push_neg
      nlinarith
    constructor
    · intro hsat
      rw [autoAdjust_upgrade c fps hnotlow hhigh,
        List.find?_eq_none.mpr (fun k _ => by simp [hsat k])]
    · intro k hk
      rw [autoAdjust_upgrade c fps hnotlow hhigh, hk]
  · intro k k2 hne
    cases k <;> cases k2 <;> first
      | exact absurd rfl hne
      | exact ⟨rfl, rfl⟩
  · intro k
    cases k <;> exact ⟨⟨rfl, rfl, rfl, rfl⟩, ⟨rfl, rfl, rfl, rfl⟩⟩
  · intro k hk
    cases k
    case particles =>
      have hp : 1 / 2 < c.particleMultiplier := by
        by_contra hcon
        simp only [canDegrade, if_neg hcon, Bool.false_eq_true] at hk
      intro heq
      have hlt : max (1 / 2) (c.particleMultiplier - 1 / 10) < c.particleMultiplier :=
        max_lt hp (by linarith)
      have heq' : c.particleMultiplier =
          max (1 / 2) (c.particleMultiplier - 1 / 10) := heq
      linarith [heq' ▸ hlt]
    case post =>
      intro heq
      have heq' : c.postProcessing = false := heq
      simp [canDegrade, heq'] at hk
    case shadows =>
      have hq : ¬c.shadowQuality = .off := by
        by_contra hcon
        simp [canDegrade, hcon] at hk
      intro heq
      have heq' : c.shadowQuality = shadowDown c.shadowQuality := heq
      cases hqq : c.shadowQuality <;> rw [hqq] at heq' hq <;>
        simp [shadowDown] at heq' hq
    case aa =>
      intro heq
      have heq' : c.antialiasing = false := heq
      simp [canDegrade, heq'] at hk
    case maxBeats =>
      have hm : 15 < c.maxVisibleBeats := by
        by_contra hcon
        simp [canDegrade, hcon] at hk
      intro heq
      have heq' : c.maxVisibleBeats = 15 := heq
      omega
    case reflections =>
      intro heq
      have heq' : c.reflections = false := heq
      simp [canDegrade, heq'] at hk
  · intro k hk
    cases k
    case particles =>
      have hp : c.particleMultiplier < 1 := by
        by_contra hcon
        simp only [canUpgrade, if_neg hcon, Bool.false_eq_true] at hk
      intro heq
      have hgt : c.particleMultiplier < min 1 (c.particleMultiplier + 1 / 10) :=
        lt_min hp (by linarith)
      have heq' : c.particleMultiplier =
          min 1 (c.particleMultiplier + 1 / 10) := heq
      linarith [heq' ▸ hgt]
    case post =>
      intro heq
      have heq' : c.postProcessing = true := heq
      simp [canUpgrade, heq'] at hk
    case shadows =>
      have hq : ¬c.shadowQuality = .high := by
        by_contra hcon
        simp [canUpgrade, hcon] at hk
      intro heq
      have heq' : c.shadowQuality = shadowUp c.shadowQuality := heq
      cases hqq : c.shadowQuality <;> rw [hqq] at heq' hq <;>
        simp [shadowUp] at heq' hq
    case aa =>
      intro heq
      have heq' : c.antialiasing = true := heq
      simp [canUpgrade, heq'] at hk
    case maxBeats =>
      have hm : c.maxVisibleBeats < 30 := by
        by_contra hcon
        simp [canUpgrade, hcon] at hk
      intro heq
      have heq' : c.maxVisibleBeats = 30 := heq
      omega
    case reflections =>
      intro heq
      have heq' : c.reflections = true := heq
      simp [canUpgrade, heq'] at hk

/-- C7 witness: at target 60, fps 57 is inside the band and nothing
changes; fps 40 degrades exactly the particle multiplier; fps 59 on the
default config upgrades exactly the shadow quality; a fully floored
config saturates and reports no change. -/
theorem adaptive_controller_regulation_witness :
    autoAdjustSettings 57 DEFAULT_CONFIG = (DEFAULT_CONFIG, false) ∧
    autoAdjustSettings 40 DEFAULT_CONFIG = (degradeAt DEFAULT_CONFIG Knob.particles, true) ∧
    autoAdjustSettings 59 DEFAULT_CONFIG = (upgradeAt DEFAULT_CONFIG Knob.shadows, true) ∧
    autoAdjustSettings 40 flooredConfig = (flooredConfig, false) :=
  ⟨(adaptive_controller_regulation DEFAULT_CONFIG 57).1
      (by norm_num [DEFAULT_CONFIG]) (by norm_num [DEFAULT_CONFIG]),
    ((adaptive_controller_regulation DEFAULT_CONFIG 40).2.1
      (by norm_num [DEFAULT_CONFIG])).2 Knob.particles
      (by norm_num [degradeOrder, canDegrade, DEFAULT_CONFIG, List.find?]),
    ((adaptive_controller_regulation DEFAULT_CONFIG 59).2.2.1
      (by norm_num [DEFAULT_CONFIG]) (by norm_num [DEFAULT_CONFIG])).2 Knob.shadows
      (by decide),
    ((adaptive_controller_regulation flooredConfig 40).2.1
      (by norm_num [flooredConfig])).1
      (fun k => by cases k <;> norm_num [canDegrade, flooredConfig])⟩

end WebDance
